import Mathlib

/-!
# Rule evaluation of `ruleset/rulebase/rulebase.go`

A shallow embedding of `Rulebase.runProjection` (the stage evaluator) and of
`Rulebase.RunRule` (the orchestrator), with the properties of the
specification stated over it.

Modelling conventions.

* Go `interface{}` values are the closed type `Val`; a failed type assertion,
  a nil dereference or a method call on a nil interface is `Outcome.panic`.
* `container/list` lists are Lean lists.  A nil `*list.List` is `none` for the
  three stages of a `Rulebase`; for `Step.MultiArgs` the source treats nil and
  the empty list alike (`MultiArgs != nil && Len() != 0`), both are `[]`.
* `[]byte` is modelled by the Go string with the same bytes (`Bytes`), the nil
  slice by `none`: `[]byte(s)` is `some s`, never nil.
* Plugins may have state: `Runnable` runs in a world `W` that is threaded
  through the pass, and every invocation is appended to a call log.
* A pass returns, next to what the Go function returns, the tree as the pass
  left it (nodes are replaced or mutated in place), the world, the call log
  and the two locals `downstream` and `sendAllFlag`.
-/

namespace Eqr

/-- Go byte slices, by the string holding the same bytes. -/
abbrev Bytes := String

/-- The values of `interface{}` that plugins exchange. -/
inductive Val where
  | nil
  | str (s : String)
  | bool (b : Bool)
  | int (n : Int)
  deriving DecidableEq, Repr

/-- The formatting `fmt.Sprintf("%v", v)`. -/
def Val.format : Val → String
  | .nil => "<nil>"
  | .str s => s
  | .bool true => "true"
  | .bool false => "false"
  | .int n => toString n

/-- The interface `plg.PluginInterface`, as far as the evaluator uses it: `Name()` and
`Runnable(args...)`, the latter over a world `W`. -/
structure Plugin (W : Type) where
  name : String
  runnable : List Val → W → (Val × Option String) × W

/-- The struct `Step`. -/
structure Step (W : Type) where
  ID : Option String
  Plugin : Option (Plugin W)
  Value : Option String
  MultiArgs : List (Step W)
  Result : Val
  GetPrev : Bool

/-- The struct `Base`, by its one field `Line`: a line, the list of its steps. -/
abbrev Base (W : Type) := List (Step W)

/-- The struct `Rulebase`, without the metric sender and the destination (they are the
collaborators of `RunRule`). -/
structure Rulebase (W : Type) where
  RuleName : String
  Predicate : Option (List (Base W))
  Projection : Option (List (Base W))
  Cache : Option (List (Base W))
  Checkpoint : Bool

/-- What a call of `runProjection` does: return its three results or panic. -/
inductive Outcome where
  | ret (result : Bool) (outbound : Option Bytes) (err : Option String)
  | panic
  deriving DecidableEq, Repr

/-- The five places of `runProjection` that invoke `Runnable`. -/
inductive CallKind where
  | child      -- line 268: a MultiArgs child that is no OPERATOR
  | opChild    -- line 286: an OPERATOR child of MultiArgs
  | crossOp    -- line 346: a cross-step OPERATOR step
  | normal     -- line 367: the normal evaluation of a step
  | cacheWrite -- line 379: the cache-store write
  deriving DecidableEq, Repr

/-- One invocation of `Runnable`: where, on which plugin, with what, returning what. -/
structure Call where
  kind : CallKind
  plugin : String
  args : List Val
  res : Val
  err : Option String
  deriving DecidableEq, Repr

/-- The world and the call log (oldest first) during a pass. -/
structure Acc (W : Type) where
  world : W
  calls : List Call

/-- Invoke `p.Runnable(args...)` and log it. -/
def invoke {W : Type} (kind : CallKind) (p : Plugin W) (args : List Val) (a : Acc W) :
    (Val × Option String) × Acc W :=
  let r := p.runnable args a.world
  (r.1, { world := r.2, calls := a.calls ++ [⟨kind, p.name, args, r.1.1, r.1.2⟩] })

/-- The local `downstream`, a `map[string]interface{}`, as an association list with
unique keys. -/
abbrev Downstream := List (String × Val)

/-- The assignment `downstream[k] = v`. -/
def Downstream.set : Downstream → String → Val → Downstream
  | [], k, v => [(k, v)]
  | (k', v') :: m, k, v => if k' = k then (k, v) :: m else (k', v') :: Downstream.set m k v

/-- The lookup `downstream[k]`. -/
def Downstream.get : Downstream → String → Option Val
  | [], _ => none
  | (k', v') :: m, k => if k' = k then some v' else Downstream.get m k

/-- What the loop over `step.MultiArgs` (lines 258-302) ends in. -/
inductive ArgsExit where
  | args (allVals : List Val)  -- the loop ended or was left by `break`
  | returned (o : Outcome)     -- a `return`, or a panic
  deriving DecidableEq, Repr

/-- The loop over `step.MultiArgs`, lines 258-302. `sValue` is `step.Value`. -/
def runMultiArgs {W : Type} (record : String) (sValue : Option String) :
    List (Step W) → List Val → Acc W → ArgsExit × Acc W
  | [], allVals, a => (.args allVals, a)
  | k :: ks, allVals, a =>
    match k.Value with
    | none => (.returned .panic, a)
    | some stepValue =>
      if stepValue ≠ "OPERATOR" then
        match k.Plugin with
        | none => (.returned .panic, a)
        | some p =>
          let r := invoke .child p [.str stepValue, .str record] a
          match r.1.2 with
          | some _ => (.returned (.ret false none (some "multi param err")), r.2)
          | none => runMultiArgs record sValue ks (allVals ++ [r.1.1]) r.2
      else
        match k.Result with
        | .str stepRes =>
          match k.Plugin, sValue with
          | some p, some sv =>
            let r := invoke .opChild p [.str sv, .str stepRes] a
            match r.1.1 with
            | .bool false => (.returned (.ret false none none), r.2)
            | .bool true => (.args allVals, r.2)
            | _ => (.returned .panic, r.2)
          | _, _ => (.returned .panic, a)
        | _ => (.returned .panic, a)

/-- How the body of the loop over the steps of a line ends for one step. -/
inductive StepExit where
  | replaced (res : Val)   -- line 396 reached: the node now holds `newStep`
  | skipped                -- `continue`, line 357
  | returned (o : Outcome) -- a `return`, or a panic
  deriving DecidableEq, Repr

/-- The result of the body for one step: how it ends, the node as it is left, and the
world and log. -/
structure StepRes (W : Type) where
  exit : StepExit
  node : Step W
  acc : Acc W

/-- Lines 371-381: the cache-store write. `front` is the first step of the line when the
current step is not the first one, `none` when it is. -/
def cacheWrite {W : Type} (ruleProperty : String) (front : Option (Step W)) (step : Step W)
    (res : Val) (a : Acc W) : Option (Acc W) :=
  if ruleProperty = "CACHE" then
    match front with
    | none => some a
    | some f =>
      match f.Plugin with
      | none => some a
      | some fp =>
        match res, step.ID with
        | .nil, _ => none
        | _, none => none
        | .str s, some id => some (invoke .cacheWrite fp [.str id, .str s] a).2
        | v, some id => some (invoke .cacheWrite fp [.str id, .str v.format] a).2
  else some a

/-- Lines 371-396, after `res` and `err` are set: cache write, the check of `err`, and
the replacement of the node by `newStep`. -/
def finishStep {W : Type} (ruleProperty : String) (front : Option (Step W)) (step : Step W)
    (res : Val) (err : Option String) (a : Acc W) : StepRes W :=
  match cacheWrite ruleProperty front step res a with
  | none => ⟨.returned .panic, step, a⟩
  | some a' =>
    match err with
    | some _ => ⟨.returned (.ret false none (some "something bad happened")), step, a'⟩
    | none =>
      ⟨.replaced res,
        { ID := step.ID, Plugin := step.Plugin, Value := step.Value, MultiArgs := [],
          Result := res, GetPrev := false }, a'⟩

/-- Lines 304-369, from the end of argument assembly to the evaluation of the step. -/
def evalArgs {W : Type} (ruleProperty : String) (record : String) (front prev : Option (Step W))
    (step : Step W) (allVals : List Val) (a : Acc W) : StepRes W :=
  match step.Value with
  | none =>
    -- `*step.Value` is read at line 316 (CACHE) or 335 (otherwise)
    ⟨.returned .panic, step, a⟩
  | some v =>
    let allVals := if ruleProperty ≠ "CACHE" then allVals ++ [.str record]
                   else allVals ++ [.str v, .str record]
    if ruleProperty ≠ "CACHE" ∧ v = "OPERATOR" then
      match prev with
      | some pv =>
        match step.Plugin with
        | none => ⟨.returned .panic, step, a⟩
        | some p =>
          let r := invoke .crossOp p [pv.Result, step.Result] a
          match r.1.1 with
          | .bool false => ⟨.returned (.ret false none none), step, r.2⟩
          | .bool true => ⟨.skipped, step, r.2⟩
          | _ => ⟨.returned .panic, step, r.2⟩
      | none => finishStep ruleProperty front step .nil none a
    else
      match step.Plugin with
      | some p =>
        let r := invoke .normal p allVals a
        finishStep ruleProperty front step r.1.1 r.1.2 r.2
      | none => finishStep ruleProperty front step .nil none a

/-- Lines 257-311: the MultiArgs loop, or the literal of a step without MultiArgs. -/
def evalMulti {W : Type} (ruleProperty : String) (record : String) (front prev : Option (Step W))
    (step : Step W) (allVals : List Val) (a : Acc W) : StepRes W :=
  match step.MultiArgs with
  | [] =>
    if ruleProperty ≠ "CACHE" then
      match step.Value with
      | none => ⟨.returned .panic, step, a⟩
      | some v => evalArgs ruleProperty record front prev step (allVals ++ [.str v]) a
    else evalArgs ruleProperty record front prev step allVals a
  | k :: ks =>
    match runMultiArgs record step.Value (k :: ks) allVals a with
    | (.returned o, a') => ⟨.returned o, step, a'⟩
    | (.args allVals', a') => evalArgs ruleProperty record front prev step allVals' a'

/-- The body of the loop over the steps of a line, lines 230-396, for the step `step`
with predecessor `prev` (`none` for the first step of the line). -/
def evalStep {W : Type} (ruleProperty : String) (record : String) (front prev : Option (Step W))
    (step : Step W) (a : Acc W) : StepRes W :=
  if step.GetPrev then
    match step.Plugin with
    | none =>
      -- line 236 logs `(*step.Plugin).Name()`
      ⟨.returned .panic, step, a⟩
    | some _ =>
      match prev with
      | none => ⟨.returned (.ret false none (some "FRONTS PREVIOUS IMPOSSIBLE")), step, a⟩
      | some pv =>
        match pv.Result with
        | .str valTmp =>
          -- line 248 writes `step.Value` on the node itself
          evalMulti ruleProperty record front prev { step with Value := some valTmp }
            [.str valTmp] a
        | _ => ⟨.returned .panic, step, a⟩
  else evalMulti ruleProperty record front prev step [] a

/-- The test of line 399: `step.Plugin != nil && (*step.Plugin).Name() == "SENDALL"`. -/
def isSendAll {W : Type} (step : Step W) : Bool :=
  match step.Plugin with
  | none => false
  | some p => p.name = "SENDALL"

/-- How the loop over the steps of one line ends. -/
inductive LineExit where
  | finished               -- all steps done
  | sendAll                -- `break` of line 401, with `sendAllFlag = true`
  | returned (o : Outcome) -- a `return`, or a panic
  deriving DecidableEq, Repr

/-- The result of the loop over one line. -/
structure LineRes (W : Type) where
  exit : LineExit
  line : Base W
  downstream : Downstream
  acc : Acc W

/-- The loop over the steps of a line, lines 229-405. `done` holds the nodes before the
current one as the pass left them: its last element is `j.Prev()`, its first the front of
the line. -/
def runLine {W : Type} (ruleProperty : String) (record : String) :
    List (Step W) → List (Step W) → Downstream → Acc W → LineRes W
  | done, [], ds, a => ⟨.finished, done, ds, a⟩
  | done, step :: rest, ds, a =>
    let r := evalStep ruleProperty record done.head? done.getLast? step a
    match r.exit with
    | .returned o => ⟨.returned o, done ++ r.node :: rest, ds, r.acc⟩
    | .skipped => runLine ruleProperty record (done ++ [r.node]) rest ds r.acc
    | .replaced res =>
      if ruleProperty = "PROJECTION" then
        if isSendAll step then ⟨.sendAll, done ++ r.node :: rest, ds, r.acc⟩
        else
          match step.ID with
          | none => ⟨.returned .panic, done ++ r.node :: rest, ds, r.acc⟩
          | some id => runLine ruleProperty record (done ++ [r.node]) rest (ds.set id res) r.acc
      else runLine ruleProperty record (done ++ [r.node]) rest ds r.acc

/-- The result of the loop over the lines of a stage: `early` is the outcome of a
`return` inside the loops, `none` when the loops ran to their end. -/
structure LinesRes (W : Type) where
  early : Option Outcome
  lines : List (Base W)
  downstream : Downstream
  sendAllFlag : Bool
  acc : Acc W

/-- The loop over the lines of a stage, lines 227-406. The `break` of line 401 leaves
the loop over the steps only; the loop over the lines goes on with the next line. -/
def runLines {W : Type} (ruleProperty : String) (record : String) :
    List (Base W) → Downstream → Bool → Acc W → LinesRes W
  | [], ds, flag, a => ⟨none, [], ds, flag, a⟩
  | l :: ls, ds, flag, a =>
    let r := runLine ruleProperty record [] l ds a
    match r.exit with
    | .returned o => ⟨some o, r.line :: ls, r.downstream, flag, r.acc⟩
    | .finished =>
      let t := runLines ruleProperty record ls r.downstream flag r.acc
      ⟨t.early, r.line :: t.lines, t.downstream, t.sendAllFlag, t.acc⟩
    | .sendAll =>
      let t := runLines ruleProperty record ls r.downstream true r.acc
      ⟨t.early, r.line :: t.lines, t.downstream, t.sendAllFlag, t.acc⟩

/-- What the rule base runs against and does not define itself: `json.Marshal` on the
`downstream` map, and whether `logger.Fatal` ends the process (as logrus does by
default) or returns. -/
structure Env where
  jsonMarshal : Downstream → Except String Bytes
  fatalExits : Bool

/-- The result of a pass: the outcome of `runProjection`, the rule base as the pass left
it, the world, the calls made, and the final `downstream` and `sendAllFlag`. -/
structure PassRes (W : Type) where
  outcome : Outcome
  rulebase : Rulebase W
  world : W
  calls : List Call
  downstream : Downstream
  sendAllFlag : Bool

/-- Lines 408-440: what `runProjection` returns once the loops ran to their end. -/
def finishPass (env : Env) (ruleProperty : String) (record : String) (ds : Downstream)
    (flag : Bool) : Outcome :=
  if ruleProperty = "PROJECTION" then
    if flag then .ret true (some record) none
    else
      match env.jsonMarshal ds with
      | .error e => .ret false none (some e)
      | .ok obound => .ret true (some obound) none
  else .ret true none none

/-- The loops and the tail of `runProjection` on the lines `ls` of the chosen stage;
`put` stores the lines back into the rule base. -/
def runStage {W : Type} (env : Env) (put : List (Base W) → Rulebase W)
    (ls : List (Base W)) (record : String) (ruleProperty : String) (w : W) : PassRes W :=
  let t := runLines ruleProperty record ls [] false ⟨w, []⟩
  match t.early with
  | some o => ⟨o, put t.lines, t.acc.world, t.acc.calls, t.downstream, t.sendAllFlag⟩
  | none =>
    ⟨finishPass env ruleProperty record t.downstream t.sendAllFlag, put t.lines,
      t.acc.world, t.acc.calls, t.downstream, t.sendAllFlag⟩

/-- The method `Rulebase.runProjection`, lines 212-441. -/
def runProjection {W : Type} (env : Env) (r : Rulebase W) (record : String)
    (ruleProperty : String) (w : W) : PassRes W :=
  if ruleProperty = "CACHE" then
    match r.Cache with
    | none => ⟨.ret true none none, r, w, [], [], false⟩
    | some ls => runStage env (fun ls' => { r with Cache := some ls' }) ls record ruleProperty w
  else if ruleProperty = "PROJECTION" then
    match r.Projection with
    | none => ⟨.panic, r, w, [], [], false⟩
    | some ls =>
      runStage env (fun ls' => { r with Projection := some ls' }) ls record ruleProperty w
  else if ruleProperty = "PREDICATE" then
    match r.Predicate with
    | none => ⟨.panic, r, w, [], [], false⟩
    | some ls =>
      runStage env (fun ls' => { r with Predicate := some ls' }) ls record ruleProperty w
  else ⟨.ret true none none, r, w, [], [], false⟩

/-- What `RunRule` does that its collaborators see. -/
inductive Event where
  | stage (ruleProperty : String)            -- a call of `runProjection`
  | counter (name : String)                  -- `SendCounter`
  | gauge (name : String) (retryCount : String) -- `SendGauge`, with `dimensions["retry_count"]`
  | publish (payload : Bytes)                -- a call of `Publish`
  | ack                                      -- `recordStruct.Channel <- 1`
  | fatal (msg : String)                     -- `logger...Fatal(msg)`
  deriving DecidableEq, Repr

/-- How a call of `RunRule` ends. -/
inductive RunExit where
  | returned  -- `RunRule` returns
  | exited    -- `logger.Fatal` ended the process
  | panic     -- a panic, in `runProjection` or at `err.Error()` on a nil error
  deriving DecidableEq, Repr

/-- The sink: what `Publish` answers (success, error) on the attempt numbered `retry`,
for the given payload. -/
abbrev Sink := Nat → Bytes → Bool × Option String

/-- The result of the publish loop: how it ends, the final `retry`, the events. -/
structure PublishRes where
  exit : RunExit
  retry : Nat
  events : List Event
  deriving DecidableEq, Repr

/-- The loop `for retry = 0; retry < 3; retry++` of lines 167-194, entered with
`remaining = 3 - retry`. -/
def publishLoop (env : Env) (sink : Sink) (checkpoint : Bool) (bytes : Bytes) :
    Nat → Nat → List Event → PublishRes
  | 0, retry, ev => ⟨.returned, retry, ev⟩
  | remaining + 1, retry, ev =>
    let r := sink retry bytes
    let ev := ev ++ [.publish bytes]
    if r.1 then ⟨.returned, retry, if checkpoint then ev ++ [.ack] else ev⟩
    else
      match r.2 with
      | none => ⟨.panic, retry, ev⟩
      | some _ =>
        if checkpoint ∧ retry ≥ 2 then
          if env.fatalExits then ⟨.exited, retry, ev ++ [.fatal "Unsuccessful publish"]⟩
          else
            publishLoop env sink checkpoint bytes remaining (retry + 1)
              (ev ++ [.fatal "Unsuccessful publish", .counter "critical_errors_count"])
        else publishLoop env sink checkpoint bytes remaining (retry + 1) ev

/-- The conversion `string(retry)` of line 200, for `retry` an `int32` in 0..3: the
string of the one character with that code point. -/
def retryCountString (retry : Nat) : String :=
  String.singleton (Char.ofNat retry)

/-- The result of `RunRule`: how it ends, the events in order, the rule base and the
world it leaves, and the plugin calls of its passes. -/
structure RunRes (W : Type) where
  exit : RunExit
  events : List Event
  rulebase : Rulebase W
  world : W
  calls : List Call

/-- What `RunRule` does on an error of a stage: `logger.Fatal`, then `return`. -/
def failStage {W : Type} (env : Env) (msg : String) (ev : List Event) (p : PassRes W)
    (calls : List Call) : RunRes W :=
  ⟨if env.fatalExits then .exited else .returned, ev ++ [.fatal msg], p.rulebase, p.world, calls⟩

/-- What `RunRule` does on a rejection: the acknowledgement when `Checkpoint`, then
`return`. -/
def rejectRecord {W : Type} (ev : List Event) (p : PassRes W) (calls : List Call) : RunRes W :=
  ⟨.returned, if p.rulebase.Checkpoint then ev ++ [.ack] else ev, p.rulebase, p.world, calls⟩

/-- Lines 162-207 of `RunRule`: the counter, the publish loop, the gauge. -/
def publishPhase {W : Type} (env : Env) (sink : Sink) (bytes : Bytes) (ev : List Event)
    (p : PassRes W) (calls : List Call) : RunRes W :=
  let l := publishLoop env sink p.rulebase.Checkpoint bytes 3 0 (ev ++ [.counter "rule_count"])
  match l.exit with
  | .returned =>
    ⟨.returned, l.events ++ [.gauge "rule_execution_time" (retryCountString l.retry)],
      p.rulebase, p.world, calls⟩
  | e => ⟨e, l.events, p.rulebase, p.world, calls⟩

/-- Lines 146-207 of `RunRule`: what `RunRule` does with the result `p` of the PROJECTION
pass: the error check of line 149, the test `res == false || bytes == nil` of line 155,
and the publish phase. -/
def afterProjection {W : Type} (env : Env) (sink : Sink) (ev : List Event) (p : PassRes W)
    (calls : List Call) : RunRes W :=
  match p.outcome with
  | .panic => ⟨.panic, ev, p.rulebase, p.world, calls⟩
  | .ret _ _ (some _) => failStage env "Error happened in running Projection" ev p calls
  | .ret false _ none => rejectRecord ev p calls
  | .ret true none none => rejectRecord ev p calls
  | .ret true (some bytes) none => publishPhase env sink bytes ev p calls

/-- Lines 143-207 of `RunRule`: the PROJECTION stage and what follows. -/
def runRuleProjection {W : Type} (env : Env) (sink : Sink) (r : Rulebase W) (record : String)
    (w : W) (ev : List Event) (calls : List Call) : RunRes W :=
  let p := runProjection env r record "PROJECTION" w
  afterProjection env sink (ev ++ [.stage "PROJECTION"]) p (calls ++ p.calls)

/-- Lines 123-207 of `RunRule`: the CACHE stage and what follows. -/
def runRuleCache {W : Type} (env : Env) (sink : Sink) (r : Rulebase W) (record : String)
    (w : W) (ev : List Event) (calls : List Call) : RunRes W :=
  let p := runProjection env r record "CACHE" w
  let ev := ev ++ [.stage "CACHE"]
  let calls := calls ++ p.calls
  match p.outcome with
  | .panic => ⟨.panic, ev, p.rulebase, p.world, calls⟩
  | .ret _ _ (some _) => failStage env "Error happened in running cache" ev p calls
  | .ret false _ none => rejectRecord ev p calls
  | .ret true _ none => runRuleProjection env sink p.rulebase record p.world ev calls

/-- The method `Rulebase.RunRule`, lines 86-208, on the payload `record` of the
checkpoint identifier. -/
def RunRule {W : Type} (env : Env) (sink : Sink) (r : Rulebase W) (record : String) (w : W) :
    RunRes W :=
  let p := runProjection env r record "PREDICATE" w
  let ev := [Event.stage "PREDICATE"]
  match p.outcome with
  | .panic => ⟨.panic, ev, p.rulebase, p.world, p.calls⟩
  | .ret _ _ (some _) => failStage env "Error happened in running predicate" ev p p.calls
  | .ret false _ none => rejectRecord ev p p.calls
  | .ret true _ none => runRuleCache env sink p.rulebase record p.world ev p.calls

/-! ## Collaborators used in the examples -/

/-- The order of two keys, character by character. -/
def keyLt : List Char → List Char → Bool
  | [], [] => false
  | [], _ :: _ => true
  | _ :: _, [] => false
  | a :: as, b :: bs =>
    if a.toNat < b.toNat then true else if b.toNat < a.toNat then false else keyLt as bs

/-- Insertion of a pair into a key-sorted association list. -/
def insertSorted (k : String) (v : Val) : Downstream → Downstream
  | [] => [(k, v)]
  | (k', v') :: m =>
    if keyLt k.data k'.data then (k, v) :: (k', v') :: m else (k', v') :: insertSorted k v m

/-- The JSON text of a value with no character that JSON escapes. -/
def jsonValue : Val → String
  | .nil => "null"
  | .str s => "\"" ++ s ++ "\""
  | .bool true => "true"
  | .bool false => "false"
  | .int n => toString n

/-- The members of a JSON object, comma-separated. -/
def jsonMembers : Downstream → String
  | [] => ""
  | [(k, v)] => "\"" ++ k ++ "\":" ++ jsonValue v
  | (k, v) :: m => "\"" ++ k ++ "\":" ++ jsonValue v ++ "," ++ jsonMembers m

/-- The encoding of `json.Marshal` on a `map[string]interface{}` whose keys and string
values hold no character that JSON escapes: the keys in sorted order, no white space. -/
def jsonMarshalPlain (ds : Downstream) : Except String Bytes :=
  .ok ("\x7b" ++ jsonMembers (ds.foldr (fun p m => insertSorted p.1 p.2 m) []) ++ "\x7d")

/-- An environment with `jsonMarshalPlain`. -/
def plainEnv (fatalExits : Bool) : Env := ⟨jsonMarshalPlain, fatalExits⟩

/-- A stateless plugin that answers `v` to every call. -/
def constPlugin (name : String) (v : Val) : Plugin Unit :=
  ⟨name, fun _ w => ((v, none), w)⟩

/-- A stateless plugin that fails on every call, answering `v` with an error. -/
def failPlugin (name : String) (v : Val) : Plugin Unit :=
  ⟨name, fun _ w => ((v, some "failed"), w)⟩

/-- A step with a plugin and a literal, nothing else set. -/
def plainStep {W : Type} (id : String) (p : Plugin W) (value : String) : Step W :=
  ⟨some id, some p, some value, [], .nil, false⟩

/-- A rule base with the given three stages. -/
def mkRule {W : Type} (pred proj : List (Base W)) (cache : Option (List (Base W)))
    (checkpoint : Bool) : Rulebase W :=
  ⟨"rule", some pred, some proj, cache, checkpoint⟩

/-- A sink that fails, with an error, on every attempt. -/
def failingSink : Sink := fun _ _ => (false, some "publish failed")

/-- A sink that fails, with an error, on the attempts before attempt number `k` (counted
from 1) and succeeds from then on. -/
def succeedsAt (k : Nat) : Sink :=
  fun retry _ => if retry + 1 < k then (false, some "publish failed") else (true, none)

/-- A rule that passes every record through: no predicate line, no cache, one projection
line with a SENDALL step. -/
def passThroughRule (checkpoint : Bool) : Rulebase Unit :=
  mkRule [] [[plainStep "all" (constPlugin "SENDALL" .nil) "x"]] none checkpoint

/-- An OPERATOR child of MultiArgs: its plugin, and the stored result it is combined
with. -/
def operatorChild {W : Type} (p : Plugin W) (result : Val) : Step W :=
  ⟨none, some p, some "OPERATOR", [], result, false⟩

/-- A step whose OPERATOR child always answers `false`. -/
def gateStep : Step Unit :=
  ⟨some "gate", some (constPlugin "NOOP" .nil), some "v",
    [operatorChild (constPlugin "EQ" (.bool false)) (.str "x")], .nil, false⟩

/-- A rule whose predicate rejects every record. -/
def rejectingRule (checkpoint : Bool) : Rulebase Unit :=
  mkRule [[gateStep]] [[plainStep "all" (constPlugin "SENDALL" .nil) "x"]] none checkpoint

/-- A rule whose projection rejects every record. -/
def rejectingProjection (checkpoint : Bool) : Rulebase Unit :=
  mkRule [] [[gateStep]] none checkpoint

/-- The record passes the three stages, run one after the other as `RunRule` runs them,
and the PROJECTION stage yields `bytes`. -/
def passesStages {W : Type} (env : Env) (r : Rulebase W) (record : String) (w : W)
    (bytes : Bytes) : Prop :=
  let p1 := runProjection env r record "PREDICATE" w
  let p2 := runProjection env p1.rulebase record "CACHE" p1.world
  let p3 := runProjection env p2.rulebase record "PROJECTION" p2.world
  (∃ o, p1.outcome = .ret true o none) ∧ (∃ o, p2.outcome = .ret true o none) ∧
    p3.outcome = .ret true (some bytes) none

/-- A predicate line that compares the value of the field `active` with the literal
`"true"`: a step with the field extractor `ext`, then a step that takes the result of
the first one (GetPrev) and has an OPERATOR child holding the literal and the equality
plugin `eq`. `resA` and `resB` are the results the two steps hold before the pass. -/
def activeLine {W : Type} (ext eq q : Plugin W) (resA resB : Val) : Base W :=
  [⟨some "a", some ext, some "active", [], resA, false⟩,
   ⟨some "b", some q, none, [operatorChild eq (.str "true")], resB, true⟩]

/-- The rule of the end-to-end example. -/
def activeRule {W : Type} (ext eq q : Plugin W) (resA resB : Val) : Rulebase W :=
  mkRule [activeLine ext eq q resA resB] [] none false

/-- A field extractor on the two records of the example. -/
def activeExtractor : Plugin Unit :=
  ⟨"PLUCK", fun args w =>
    match args with
    | [.str "active", .str r] =>
      if r = "\x7b\"active\":\"true\"\x7d" then ((.str "true", none), w)
      else if r = "\x7b\"active\":\"false\"\x7d" then ((.str "false", none), w)
      else ((.nil, some "no such field"), w)
    | _ => ((.nil, some "bad arguments"), w)⟩

/-- Equality of two strings, as an operator plugin. -/
def equalPlugin : Plugin Unit :=
  ⟨"EQUAL", fun args w =>
    match args with
    | [.str a, .str b] => ((.bool (a == b), none), w)
    | _ => ((.nil, some "bad arguments"), w)⟩

/-- The record of the example whose field `active` is `"true"`. -/
def recordTrue : String := "\x7b\"active\":\"true\"\x7d"

/-- The record of the example whose field `active` is `"false"`. -/
def recordFalse : String := "\x7b\"active\":\"false\"\x7d"

/-- A predicate whose first line starts with a GetPrev step that has no plugin. -/
def frontGetPrevRule : Rulebase Unit :=
  mkRule [[⟨some "a", none, some "v", [], .nil, true⟩]] [] none false

/-! ## Predicates on the call log -/

/-- The outcome of a `return` inside the MultiArgs loop, `none` when the loop goes on. -/
def ArgsExit.outcome? : ArgsExit → Option Outcome
  | .args _ => none
  | .returned o => some o

/-- The outcome of a `return` inside the body for one step, `none` when the pass goes
on. -/
def StepExit.outcome? : StepExit → Option Outcome
  | .replaced _ => none
  | .skipped => none
  | .returned o => some o

/-- The outcome of a `return` inside the loop over a line, `none` when the pass goes
on. -/
def LineExit.outcome? : LineExit → Option Outcome
  | .finished => none
  | .sendAll => none
  | .returned o => some o

/-- An operator invocation that answered `false`: an OPERATOR child of MultiArgs or a
cross-step OPERATOR step. -/
def OpFalse (c : Call) : Prop :=
  (c.kind = .opChild ∨ c.kind = .crossOp) ∧ c.res = .bool false

/-- No operator invocation of the log answered `false`. -/
def Clean (calls : List Call) : Prop := ∀ c ∈ calls, ¬ OpFalse c

/-- Where a pass stands with respect to gate rejection: no operator answered `false` so
far, or the last call made is one and the pass has returned `(false, nil, nil)`. -/
def Gated (calls : List Call) (o : Option Outcome) : Prop :=
  Clean calls ∨ ∃ pre c, calls = pre ++ [c] ∧ Clean pre ∧ o = some (.ret false none none)

/-- A compute invocation that returned an error: a MultiArgs child that is no OPERATOR,
or the normal evaluation of a step. -/
def ErrCall (c : Call) : Prop := c.err ≠ none ∧ (c.kind = .child ∨ c.kind = .normal)

/-- A MultiArgs child that is no OPERATOR and returned an error. -/
def ChildErr (c : Call) : Prop := c.err ≠ none ∧ c.kind = .child

/-- No compute invocation of the log returned an error. -/
def NoErr (calls : List Call) : Prop := ∀ c ∈ calls, ¬ ErrCall c

/-- No MultiArgs child of the log returned an error. -/
def NoChildErr (calls : List Call) : Prop := ∀ c ∈ calls, ¬ ChildErr c

/-- Where a pass stands with respect to errors of compute invocations: none so far; or a
normal evaluation failed in the CACHE stage and the pass panicked in the cache write; or
the pass has returned `(false, nil, err)` with an error. -/
def Failed (rp : String) (calls : List Call) (o : Option Outcome) : Prop :=
  NoErr calls ∨ (NoChildErr calls ∧ rp = "CACHE" ∧ o = some .panic) ∨
    ∃ e, o = some (.ret false none (some e))

/-- The result `passed` of an outcome, `false` for a panic. -/
def Outcome.passed : Outcome → Bool
  | .ret b _ _ => b
  | .panic => false

/-- The normal evaluations that `after` holds beyond `before` all satisfy `Q`. -/
def Adds (Q : Call → Prop) (before after : List Call) : Prop :=
  ∀ c ∈ after, c.kind = .normal → c ∈ before ∨ Q c

/-- A call on a plugin that is not named SENDALL. -/
def NotSendAll (c : Call) : Prop := c.plugin ≠ "SENDALL"

/-- The writes to the output document that the nodes of a line stand for, in order: one
per node with an ID, the cross-step OPERATOR nodes (literal OPERATOR, not first in the
line) left out. `front` tells whether the first node is the first of its line. -/
def lineWrites {W : Type} : Bool → List (Step W) → List (String × Val)
  | _, [] => []
  | front, s :: rest =>
    (if front = true ∨ s.Value ≠ some "OPERATOR" then
      match s.ID with
      | some id => [(id, s.Result)]
      | none => []
     else []) ++ lineWrites false rest

/-- The writes that the lines of a stage stand for, in projection order. -/
def stageWrites {W : Type} : List (Base W) → List (String × Val)
  | [] => []
  | l :: ls => lineWrites true l ++ stageWrites ls

/-- The value of the last write to the key `k`, if any. -/
def lastWrite : List (String × Val) → String → Option Val
  | [], _ => none
  | (k', v) :: ws, k =>
    match lastWrite ws k with
    | some v' => some v'
    | none => if k' = k then some v else none

/-- The map after the writes `ws`, made in order. -/
def applyWrites (ds : Downstream) (ws : List (String × Val)) : Downstream :=
  ws.foldl (fun m p => m.set p.1 p.2) ds

/-- What the body of the step loop leaves in the node, outside the CACHE stage: a replaced
node keeps the ID and holds the new result, and it is the first of its line or its
literal is not OPERATOR; a skipped node keeps the ID, has a predecessor and the literal
OPERATOR. -/
def NodeOK {W : Type} (prev : Option (Step W)) (step : Step W) (r : StepRes W) : Prop :=
  (∀ res, r.exit = .replaced res →
    r.node.ID = step.ID ∧ r.node.Result = res ∧
      (prev = none ∨ r.node.Value ≠ some "OPERATOR")) ∧
  (r.exit = .skipped →
    r.node.ID = step.ID ∧ prev ≠ none ∧ r.node.Value = some "OPERATOR")

/-! ## Rules used in the examples -/

/-- A step with the plugin SENDALL. -/
def sendAllStep : Step Unit := plainStep "all" (constPlugin "SENDALL" .nil) "x"

/-- A projection whose first line rejects every record and whose second line is a
SENDALL step. -/
def gatedSendAllRule : Rulebase Unit := mkRule [] [[gateStep], [sendAllStep]] none false

/-- A projection whose first line is a SENDALL step and whose second line rejects every
record. -/
def sendAllThenGateRule : Rulebase Unit := mkRule [] [[sendAllStep], [gateStep]] none false

/-- A cross-step OPERATOR step with the ID `o`. -/
def operatorStep (p : Plugin Unit) : Step Unit :=
  ⟨some "o", some p, some "OPERATOR", [], .nil, false⟩

/-- A projection of one line: a step `a`, then a cross-step OPERATOR step `o` whose
operator answers `true`. -/
def operatorStepRule : Rulebase Unit :=
  mkRule [] [[plainStep "a" (constPlugin "GET" (.str "x")) "v",
    operatorStep (constPlugin "EQ" (.bool true))]] none false

/-- A projection of two lines with one step each. -/
def twoFieldRule : Rulebase Unit :=
  mkRule [] [[plainStep "a" (constPlugin "GET" (.str "x")) "v"],
    [plainStep "b" (constPlugin "NUM" (.int 3)) "w"]] none false

/-- A predicate whose cross-step OPERATOR step answers `false` together with an error. -/
def crossOpErrRule : Rulebase Unit :=
  mkRule [[plainStep "a" (constPlugin "GET" (.str "x")) "v",
    operatorStep (failPlugin "EQ" (.bool false))]] [] none false

/-- A predicate whose OPERATOR child answers `true` together with an error. -/
def opChildErrRule : Rulebase Unit :=
  mkRule [[⟨some "g", some (constPlugin "NOOP" .nil), some "v",
    [operatorChild (failPlugin "EQ" (.bool true)) (.str "x")], .nil, false⟩]] [] none false

/-- A predicate whose one step fails in its normal evaluation. -/
def failingStepRule : Rulebase Unit :=
  mkRule [[plainStep "a" (failPlugin "GET" .nil) "v"]] [] none false

/-- The lines that `runProjection` iterates for `ruleProperty`, lines 217-226: the list
of the named stage, `none` when the stage is nil or the name is none of the three. -/
def stageOf {W : Type} (r : Rulebase W) (ruleProperty : String) : Option (List (Base W)) :=
  if ruleProperty = "CACHE" then r.Cache
  else if ruleProperty = "PROJECTION" then r.Projection
  else if ruleProperty = "PREDICATE" then r.Predicate
  else none

/-- The rule base with the lines `ls` stored as the stage named `ruleProperty`. -/
def putStage {W : Type} (r : Rulebase W) (ruleProperty : String) (ls : List (Base W)) :
    Rulebase W :=
  if ruleProperty = "CACHE" then { r with Cache := some ls }
  else if ruleProperty = "PROJECTION" then { r with Projection := some ls }
  else if ruleProperty = "PREDICATE" then { r with Predicate := some ls }
  else r

/-- The pass over the lines `L1` that precede a line, from the start of the pass. -/
def linesBefore {W : Type} (rp record : String) (L1 : List (Base W)) (w : W) : LinesRes W :=
  runLines rp record L1 [] false ⟨w, []⟩

/-- The pass over the steps `S1` that precede a step in its line, after the lines `L1`. -/
def stepsBefore {W : Type} (rp record : String) (L1 : List (Base W)) (S1 : List (Step W))
    (w : W) : LineRes W :=
  runLine rp record [] S1 (linesBefore rp record L1 w).downstream (linesBefore rp record L1 w).acc

/-- The body of the step loop for the step `s` that follows the lines `L1` and, in its
line, the steps `S1`. -/
def bodyAt {W : Type} (rp record : String) (L1 : List (Base W)) (S1 : List (Step W))
    (s : Step W) (w : W) : StepRes W :=
  evalStep rp record (stepsBefore rp record L1 S1 w).line.head?
    (stepsBefore rp record L1 S1 w).line.getLast? s (stepsBefore rp record L1 S1 w).acc

/-- The pass gets to the step after the lines `L1` and the steps `S1`: no `return` before
it, and no `break` in its line before it. -/
def Reaches {W : Type} (rp record : String) (L1 : List (Base W)) (S1 : List (Step W))
    (w : W) : Prop :=
  (linesBefore rp record L1 w).early = none ∧ (stepsBefore rp record L1 S1 w).exit = .finished

/-- The node at position `j` of line `i` of a stage. -/
def nodeAt {W : Type} (ls : List (Base W)) (i j : Nat) : Option (Step W) :=
  (ls[i]?).bind (fun l => l[j]?)

/-- A projection whose first line is a SENDALL step and whose second line is a plain
step `b`. -/
def sendAllThenFieldRule : Rulebase Unit :=
  mkRule [] [[sendAllStep], [plainStep "b" (constPlugin "NUM" (.int 3)) "w"]] none false

/-- A cache stage of one line: the store step `k`, then a step `s` whose plugin answers
`v` together with an error. -/
def cacheFailRule (v : Val) : Rulebase Unit :=
  mkRule [] [] (some [[plainStep "k" (constPlugin "STORE" .nil) "key",
    plainStep "s" (failPlugin "LOOKUP" v) "v"]]) false

/-- A cache stage of one line: the store step `k`, then a step `s` whose plugin answers
`v`. -/
def cacheLineRule (v : Val) : Rulebase Unit :=
  mkRule [] [] (some [[plainStep "k" (constPlugin "STORE" .nil) "key",
    plainStep "s" (constPlugin "LOOKUP" v) "v"]]) false

/-- What the body of the step loop leaves in the node of `step`: the `newStep` of lines
390-395 when the node is replaced, the step itself otherwise. -/
def Kept {W : Type} (step : Step W) (r : StepRes W) : Prop :=
  match r.exit with
  | .replaced res => r.node = ⟨step.ID, step.Plugin, step.Value, [], res, false⟩
  | _ => r.node = step

/-- The literal a step is evaluated with: the Result of the predecessor, a string, when
the step has GetPrev (line 248), its own Value otherwise. -/
def valueAt {W : Type} (prev : Option (Step W)) (step : Step W) : Option String :=
  if step.GetPrev then
    match prev with
    | some pv =>
      match pv.Result with
      | .str v => some v
      | _ => none
    | none => none
  else step.Value

/-- A predicate of two lines: a step `a`, a cross-step OPERATOR step whose operator
answers `false`, a step `c`; then a line with a step `d`. The steps `c` and `d` hold
results of an earlier pass. -/
def shortCircuitRule : Rulebase Unit :=
  mkRule [[plainStep "a" (constPlugin "GET" (.str "x")) "v",
      operatorStep (constPlugin "EQ" (.bool false)),
      ⟨some "c", some (constPlugin "NUM" (.int 3)), some "w", [], .str "old", false⟩],
    [⟨some "d", some (constPlugin "NUM" (.int 4)), some "w", [], .str "older", false⟩]]
    [] none false

/-- A predicate whose one line starts with an OPERATOR step that holds the result `"x"`. -/
def frontOperatorRule : Rulebase Unit :=
  mkRule [[⟨some "o", some (constPlugin "EQ" (.bool true)), some "OPERATOR", [], .str "x",
    false⟩]] [] none false

/-- The children of `step.MultiArgs` that the loop of lines 258-302 invokes as compute
children: those before the first child whose Value is OPERATOR. -/
def nonOperatorChildren {W : Type} (step : Step W) : List (Step W) :=
  step.MultiArgs.takeWhile (fun c => decide (c.Value ≠ some "OPERATOR"))

/-- The call `c` is the invocation `k.Plugin.Runnable(k.Value, record)` of the MultiArgs
child `k`. -/
def IsChildCall {W : Type} (record : String) (k : Step W) (c : Call) : Prop :=
  c.kind = .child ∧
    ∃ p v, k.Plugin = some p ∧ k.Value = some v ∧ c.plugin = p.name ∧
      c.args = [.str v, .str record]

/-- The invocations of MultiArgs children among the calls `cs`. -/
def childCalls (cs : List Call) : List Call :=
  cs.filter (fun c => decide (c.kind = .child))

/-- The argument list of the normal evaluation of `step`, as the specification gives it:
`P ++ M ++ T`, where `childResults` are the results of the compute children and the
literal is `valueAt prev step`. -/
def specArgs {W : Type} (rp record : String) (prev : Option (Step W)) (step : Step W)
    (childResults : List Val) : List Val :=
  (if step.GetPrev then (prev.map (fun pv => pv.Result)).toList else []) ++
  (if step.MultiArgs.isEmpty then
      (if rp ≠ "CACHE" then (valueAt prev step).toList.map Val.str else [])
    else childResults) ++
  (if rp ≠ "CACHE" then [.str record]
    else (valueAt prev step).toList.map Val.str ++ [.str record])

/-- A GetPrev step with four MultiArgs children: two compute children, an OPERATOR child
whose operator answers `true`, and a compute child behind it. -/
def multiArgsStep : Step Unit :=
  ⟨some "m", some (constPlugin "JOIN" (.str "j")), none,
    [plainStep "c1" (constPlugin "GET" (.str "x")) "f1",
     plainStep "c2" (constPlugin "NUM" (.int 3)) "f2",
     operatorChild (constPlugin "EQ" (.bool true)) (.str "y"),
     plainStep "c3" (constPlugin "GET" (.str "z")) "f3"], .nil, true⟩

/-- The pass over the lines `L2` behind the line of a SENDALL step `s` that was reached
and replaced: the `break` of line 401 leaves the loop over the steps of its line, and
the loop over the lines goes on with `L2`, `sendAllFlag` being set. -/
def linesAfterSendAll {W : Type} (record : String) (L1 : List (Base W)) (S1 : List (Step W))
    (s : Step W) (L2 : List (Base W)) (w : W) : LinesRes W :=
  runLines "PROJECTION" record L2 (stepsBefore "PROJECTION" record L1 S1 w).downstream true
    (bodyAt "PROJECTION" record L1 S1 s w).acc

/-- A sink whose `Publish` fails on the first two attempts without an error value
(`false, nil`) and succeeds on the third. -/
def silentFailSink : Sink :=
  fun retry _ => if retry + 1 < 3 then (false, none) else (true, none)

/-- A result of a PROJECTION pass with `passed = true`, no error and the output `out`,
on the pass-through rule. -/
def passedResult (out : Option Bytes) : PassRes Unit :=
  ⟨.ret true out none, passThroughRule true, (), [], [], false⟩

/-! ## The orchestrator `RunRule` -/

theorem runStage_checkpoint {W : Type} (env : Env) (r : Rulebase W)
    (f : Rulebase W → List (Base W) → Rulebase W)
    (hf : ∀ ls, (f r ls).Checkpoint = r.Checkpoint)
    (ls : List (Base W)) (record rp : String) (w : W) :
    (runStage env (f r) ls record rp w).rulebase.Checkpoint = r.Checkpoint := by
  unfold runStage
  dsimp only
  split <;> exact hf _

/-- A pass leaves the `Checkpoint` flag of the rule base as it is. -/
theorem runProjection_checkpoint {W : Type} (env : Env) (r : Rulebase W) (record rp : String)
    (w : W) : (runProjection env r record rp w).rulebase.Checkpoint = r.Checkpoint := by
  unfold runProjection
  split_ifs
  · split
    · rfl
    · exact runStage_checkpoint env r (fun r ls => { r with Cache := some ls })
        (fun _ => rfl) _ _ _ _
  · split
    · rfl
    · exact runStage_checkpoint env r (fun r ls => { r with Projection := some ls })
        (fun _ => rfl) _ _ _ _
  · split
    · rfl
    · exact runStage_checkpoint env r (fun r ls => { r with Predicate := some ls })
        (fun _ => rfl) _ _ _ _
  · rfl

/-- C6: when the PREDICATE stage returns `passed = false` without error, `RunRule`
returns after that one pass: the only stage evaluated is PREDICATE (no CACHE, no
PROJECTION pass, so no plugin call beyond those of the predicate), nothing is published,
and the checkpoint channel gets exactly one acknowledgement when `Checkpoint` is set and
none otherwise. -/
theorem predicate_rejection_ends_rule {W : Type} (env : Env) (sink : Sink) (r : Rulebase W)
    (record : String) (w : W) (out : Option Bytes)
    (h : (runProjection env r record "PREDICATE" w).outcome = .ret false out none) :
    (RunRule env sink r record w).exit = .returned ∧
    (RunRule env sink r record w).events =
      (if r.Checkpoint then [Event.stage "PREDICATE", Event.ack]
       else [Event.stage "PREDICATE"]) ∧
    (RunRule env sink r record w).calls = (runProjection env r record "PREDICATE" w).calls := by
  unfold RunRule
  simp only [h, rejectRecord, runProjection_checkpoint]
  cases r.Checkpoint <;> simp

theorem predicate_rejection_ends_rule_witness :
    (runProjection (plainEnv true) (rejectingRule true) "rec" "PREDICATE" ()).outcome
      = .ret false none none ∧
    (RunRule (plainEnv true) failingSink (rejectingRule true) "rec" ()).events
      = [Event.stage "PREDICATE", Event.ack] :=
  ⟨by decide,
   (predicate_rejection_ends_rule (plainEnv true) failingSink (rejectingRule true) "rec" ()
      none (by decide)).2.1⟩

/-- Once the three stages passed, `RunRule` is the publish loop followed by the gauge. -/
theorem runRule_of_passes {W : Type} (env : Env) (sink : Sink) (r : Rulebase W)
    (record : String) (w : W) (bytes : Bytes) (hp : passesStages env r record w bytes) :
    (RunRule env sink r record w).exit =
      (publishLoop env sink r.Checkpoint bytes 3 0
        [.stage "PREDICATE", .stage "CACHE", .stage "PROJECTION", .counter "rule_count"]).exit ∧
    (RunRule env sink r record w).events =
      (match (publishLoop env sink r.Checkpoint bytes 3 0
        [.stage "PREDICATE", .stage "CACHE", .stage "PROJECTION", .counter "rule_count"]) with
       | ⟨.returned, retry, ev⟩ => ev ++ [.gauge "rule_execution_time" (retryCountString retry)]
       | ⟨_, _, ev⟩ => ev) := by
  obtain ⟨⟨o1, h1⟩, ⟨o2, h2⟩, h3⟩ := hp
  unfold RunRule
  simp only [h1]
  unfold runRuleCache
  simp only [h2]
  unfold runRuleProjection afterProjection
  simp only [h3]
  unfold publishPhase
  simp only [runProjection_checkpoint, List.cons_append, List.nil_append]
  generalize publishLoop env sink r.Checkpoint bytes 3 0 _ = l
  obtain ⟨e, n, ev⟩ := l
  cases e <;> simp

/-- C7, as the code has it: for a record that passes the three stages with `Checkpoint`
set, and a sink whose `Publish` fails (with an error) on every attempt, `RunRule` makes
exactly 3 publish attempts, logs the fatal message, and writes no acknowledgement to the
checkpoint channel; when `logger.Fatal` returns it then emits `critical_errors_count`
exactly once and the gauge, when `logger.Fatal` ends the process nothing follows. -/
theorem publish_exhaustion_no_ack {W : Type} (env : Env) (sink : Sink) (r : Rulebase W)
    (record : String) (w : W) (bytes : Bytes)
    (hp : passesStages env r record w bytes) (hc : r.Checkpoint = true)
    (hfail : ∀ n, ∃ e, sink n bytes = (false, some e)) :
    (RunRule env sink r record w).events =
      [.stage "PREDICATE", .stage "CACHE", .stage "PROJECTION", .counter "rule_count",
        .publish bytes, .publish bytes, .publish bytes, .fatal "Unsuccessful publish"] ++
        (if env.fatalExits then []
         else [.counter "critical_errors_count",
               .gauge "rule_execution_time" (retryCountString 3)]) ∧
    (RunRule env sink r record w).events.count (.publish bytes) = 3 ∧
    (RunRule env sink r record w).events.count .ack = 0 ∧
    (env.fatalExits = false →
      (RunRule env sink r record w).events.count (.counter "critical_errors_count") = 1) := by
  obtain ⟨e0, h0⟩ := hfail 0
  obtain ⟨e1, h1⟩ := hfail 1
  obtain ⟨e2, h2⟩ := hfail 2
  rw [(runRule_of_passes env sink r record w bytes hp).2]
  simp only [publishLoop, h0, h1, h2, hc]
  cases env.fatalExits <;> simp

theorem publish_exhaustion_no_ack_witness :
    passesStages (plainEnv false) (passThroughRule true) "rec" () "rec" ∧
    (RunRule (plainEnv false) failingSink (passThroughRule true) "rec" ()).events.count .ack
      = 0 :=
  ⟨⟨⟨none, by decide⟩, ⟨none, by decide⟩, by decide⟩,
   (publish_exhaustion_no_ack (plainEnv false) failingSink (passThroughRule true) "rec" ()
      "rec" ⟨⟨none, by decide⟩, ⟨none, by decide⟩, by decide⟩ rfl
      (fun _ => ⟨"publish failed", rfl⟩)).2.2.1⟩

/-- C7 as stated fails: with `Checkpoint` set and a sink that always fails, the record
that passes the three stages gets 3 publish attempts and one `critical_errors_count`,
but no acknowledgement at all, whether `logger.Fatal` returns or not. -/
theorem publish_exhaustion_ack_counterexample :
    (RunRule (plainEnv false) failingSink (passThroughRule true) "rec" ()).events =
      [.stage "PREDICATE", .stage "CACHE", .stage "PROJECTION", .counter "rule_count",
        .publish "rec", .publish "rec", .publish "rec", .fatal "Unsuccessful publish",
        .counter "critical_errors_count", .gauge "rule_execution_time" (retryCountString 3)] ∧
    ¬ ((RunRule (plainEnv false) failingSink (passThroughRule true) "rec" ()).events.count
        .ack = 1) ∧
    ¬ ((RunRule (plainEnv true) failingSink (passThroughRule true) "rec" ()).events.count
        .ack = 1) := by
  decide

/-- The retry loop when every failure carries an error value: for a record that passes
the three stages and `k` in 1..3, with a sink whose `Publish` fails (with a non-nil
error) on the first `k - 1` attempts and succeeds on attempt
`k`, `RunRule` makes exactly `k` publish attempts, then writes one acknowledgement when
`Checkpoint` is set (none otherwise), emits the gauge and returns; it emits no
`critical_errors_count` and logs nothing fatal. -/
theorem publish_retry_until_success {W : Type} (env : Env) (sink : Sink) (r : Rulebase W)
    (record : String) (w : W) (bytes : Bytes) (k : Nat)
    (hp : passesStages env r record w bytes) (hk : 1 ≤ k ∧ k ≤ 3)
    (hfail : ∀ n, n + 1 < k → ∃ e, sink n bytes = (false, some e))
    (hok : (sink (k - 1) bytes).1 = true) :
    (RunRule env sink r record w).exit = .returned ∧
    (RunRule env sink r record w).events =
      [.stage "PREDICATE", .stage "CACHE", .stage "PROJECTION", .counter "rule_count"] ++
        List.replicate k (.publish bytes) ++ (if r.Checkpoint then [.ack] else []) ++
        [.gauge "rule_execution_time" (retryCountString (k - 1))] ∧
    (RunRule env sink r record w).events.count (.publish bytes) = k ∧
    (RunRule env sink r record w).events.count .ack = (if r.Checkpoint then 1 else 0) ∧
    (RunRule env sink r record w).events.count (.counter "critical_errors_count") = 0 := by
  obtain ⟨hk1, hk3⟩ := hk
  rw [(runRule_of_passes env sink r record w bytes hp).1,
    (runRule_of_passes env sink r record w bytes hp).2]
  interval_cases k
  · simp only [publishLoop, Nat.sub_self, hok] at hok ⊢
    cases r.Checkpoint <;> simp [List.replicate]
  · obtain ⟨e0, h0⟩ := hfail 0 (by omega)
    simp only [publishLoop, h0] at hok ⊢
    simp at hok
    cases hc : r.Checkpoint <;> simp [List.replicate, hok]
  · obtain ⟨e0, h0⟩ := hfail 0 (by omega)
    obtain ⟨e1, h1⟩ := hfail 1 (by omega)
    simp only [publishLoop, h0, h1] at hok ⊢
    simp at hok
    cases hc : r.Checkpoint <;> simp [List.replicate, hok]

theorem publish_retry_until_success_witness :
    passesStages (plainEnv true) (passThroughRule true) "rec" () "rec" ∧
    (RunRule (plainEnv true) (succeedsAt 3) (passThroughRule true) "rec" ()).events =
      [.stage "PREDICATE", .stage "CACHE", .stage "PROJECTION", .counter "rule_count",
        .publish "rec", .publish "rec", .publish "rec", .ack,
        .gauge "rule_execution_time" (retryCountString 2)] :=
  ⟨⟨⟨none, by decide⟩, ⟨none, by decide⟩, by decide⟩,
   (publish_retry_until_success (plainEnv true) (succeedsAt 3) (passThroughRule true) "rec" ()
      "rec" 3 ⟨⟨none, by decide⟩, ⟨none, by decide⟩, by decide⟩ ⟨by decide, by decide⟩
      (fun n hn => ⟨"publish failed", by
        have h : n = 0 ∨ n = 1 := by omega
        rcases h with h | h <;> subst h <;> rfl⟩)
      rfl).2.1⟩

/-- The events of the publish loop extend the events it starts with. -/
theorem publishLoop_extends (env : Env) (sink : Sink) (c : Bool) (bytes : Bytes) :
    ∀ (n retry : Nat) (ev : List Event),
      ∃ rest, (publishLoop env sink c bytes n retry ev).events = ev ++ rest := by
  intro n
  induction n with
  | zero => intro retry ev; exact ⟨[], by simp [publishLoop]⟩
  | succ n ih =>
    intro retry ev
    unfold publishLoop
    rcases hs : sink retry bytes with ⟨b, e⟩
    cases b
    · cases e
      · exact ⟨[.publish bytes], by simp⟩
      · by_cases hc : c = true ∧ retry ≥ 2
        · cases hf : env.fatalExits
          · have hc1 := hc.1
            subst hc1
            obtain ⟨rest, h⟩ := ih (retry + 1) (ev ++ [.publish bytes] ++
              [.fatal "Unsuccessful publish", .counter "critical_errors_count"])
            refine ⟨[.publish bytes, .fatal "Unsuccessful publish",
              .counter "critical_errors_count"] ++ rest, ?_⟩
            simp only [hc, hf, and_self, if_true, Bool.false_eq_true, if_false, h]
            simp
          · exact ⟨[.publish bytes, .fatal "Unsuccessful publish"], by simp [hc, hf]⟩
        · obtain ⟨rest, h⟩ := ih (retry + 1) (ev ++ [.publish bytes])
          refine ⟨[.publish bytes] ++ rest, ?_⟩
          simp only [hc, if_false, Bool.false_eq_true, h]
          simp
    · cases c
      · exact ⟨[.publish bytes], by simp⟩
      · exact ⟨[.publish bytes, .ack], by simp⟩

/-- The test of line 155 seen from `RunRule`: after a passed PREDICATE and CACHE
stage, when the PROJECTION stage returns no error and nil output bytes, `RunRule` treats the
record as rejected: the three passes, then one acknowledgement when `Checkpoint` is set,
no `rule_count` and no publish attempt. Output bytes that are not nil, of whatever length,
returned with `passed = true` are counted and published. -/
theorem nil_output_rejects {W : Type} (env : Env) (sink : Sink) (r : Rulebase W)
    (record : String) (w : W) (o1 o2 : Option Bytes)
    (h1 : (runProjection env r record "PREDICATE" w).outcome = .ret true o1 none)
    (h2 : (runProjection env (runProjection env r record "PREDICATE" w).rulebase record "CACHE"
            (runProjection env r record "PREDICATE" w).world).outcome = .ret true o2 none) :
    let p1 := runProjection env r record "PREDICATE" w
    let p2 := runProjection env p1.rulebase record "CACHE" p1.world
    let p3 := runProjection env p2.rulebase record "PROJECTION" p2.world
    (∀ res, p3.outcome = .ret res none none →
      (RunRule env sink r record w).exit = .returned ∧
      (RunRule env sink r record w).events =
        [.stage "PREDICATE", .stage "CACHE", .stage "PROJECTION"] ++
          (if r.Checkpoint then [.ack] else [])) ∧
    (∀ bytes, p3.outcome = .ret true (some bytes) none →
      ∃ rest, (RunRule env sink r record w).events =
        [.stage "PREDICATE", .stage "CACHE", .stage "PROJECTION", .counter "rule_count",
          .publish bytes] ++ rest) := by
  intro p1 p2 p3
  constructor
  · intro res h3
    unfold RunRule
    simp only [h1]
    unfold runRuleCache
    simp only [h2]
    unfold runRuleProjection afterProjection
    have h3' : (runProjection env (runProjection env (runProjection env r record "PREDICATE" w).rulebase record "CACHE"
            (runProjection env r record "PREDICATE" w).world).rulebase record "PROJECTION"
            (runProjection env (runProjection env r record "PREDICATE" w).rulebase record "CACHE"
            (runProjection env r record "PREDICATE" w).world).world).outcome = .ret res none none := h3
    simp only [h3']
    cases res <;> cases hc : r.Checkpoint <;> simp [rejectRecord, runProjection_checkpoint, hc]
  · intro bytes h3
    have hp : passesStages env r record w bytes := ⟨⟨o1, h1⟩, ⟨o2, h2⟩, h3⟩
    rw [(runRule_of_passes env sink r record w bytes hp).2]
    have hl : ∃ rest, (publishLoop env sink r.Checkpoint bytes 3 0
        [.stage "PREDICATE", .stage "CACHE", .stage "PROJECTION", .counter "rule_count"]).events
        = [.stage "PREDICATE", .stage "CACHE", .stage "PROJECTION", .counter "rule_count",
          .publish bytes] ++ rest := by
      unfold publishLoop
      rcases hs : sink 0 bytes with ⟨b, e⟩
      cases b
      · cases e
        · exact ⟨[], by simp⟩
        · obtain ⟨rest, h⟩ := publishLoop_extends env sink r.Checkpoint bytes 2 1
            ([.stage "PREDICATE", .stage "CACHE", .stage "PROJECTION", .counter "rule_count"] ++
            [.publish bytes])
          have hn : ¬ (r.Checkpoint = true ∧ 0 ≥ 2) := by simp
          refine ⟨rest, ?_⟩
          simp only [hn, if_false, Bool.false_eq_true, Nat.zero_add]
          rw [h]
          simp
      · cases r.Checkpoint
        · exact ⟨[], by simp⟩
        · exact ⟨[.ack], by simp⟩
    obtain ⟨rest, hl⟩ := hl
    generalize publishLoop env sink r.Checkpoint bytes 3 0 _ = l at hl
    obtain ⟨e, n, ev⟩ := l
    simp only at hl
    subst hl
    cases e
    · exact ⟨rest ++ [.gauge "rule_execution_time" (retryCountString n)], by simp⟩
    · exact ⟨rest, by simp⟩
    · exact ⟨rest, by simp⟩

theorem nil_output_rejects_witness :
    (runProjection (plainEnv false) (rejectingProjection true) "rec" "PROJECTION" ()).outcome
      = .ret false none none ∧
    (RunRule (plainEnv false) failingSink (rejectingProjection true) "rec" ()).events =
        [.stage "PREDICATE", .stage "CACHE", .stage "PROJECTION", .ack] :=
  ⟨by decide,
   ((nil_output_rejects (plainEnv false) failingSink (rejectingProjection true) "rec" ()
      none none (by decide) (by decide)).1 false (by decide)).2⟩

/-- C9 as stated fails for empty output: a SENDALL projection of the empty record returns
`(true, []byte(""), nil)`, of length 0 and not nil, and `RunRule` counts and publishes
it. -/
theorem empty_output_published_counterexample :
    (runProjection (plainEnv false) (passThroughRule true) "" "PROJECTION" ()).outcome
      = .ret true (some "") none ∧ ("" : Bytes).length = 0 ∧
    (RunRule (plainEnv false) (succeedsAt 1) (passThroughRule true) "" ()).events =
      [.stage "PREDICATE", .stage "CACHE", .stage "PROJECTION", .counter "rule_count",
        .publish "", .ack, .gauge "rule_execution_time" (retryCountString 0)] := by
  decide


/-! ## The stage evaluator `runProjection` -/

/-- C5 fails on a first step with GetPrev set and no plugin: `runProjection` panics at
the debug log of line 236, which reads `(*step.Plugin).Name()` before the test
`j.Prev() == nil`, and returns no error. -/
theorem getPrev_front_without_plugin_panics :
    frontGetPrevRule.Predicate = some [[⟨some "a", none, some "v", [], .nil, true⟩]] ∧
    (runProjection (plainEnv false) frontGetPrevRule "rec" "PREDICATE" ()).outcome
      = .panic :=
  ⟨rfl, by decide⟩

/-- With a plugin set, GetPrev on the first step of the first line of a stage makes
`runProjection` return the error of line 244. -/
theorem getPrev_front_fails {W : Type} (env : Env) (r : Rulebase W) (record rp : String) (w : W)
    (step : Step W) (rest : Base W) (ls : List (Base W)) (p : Plugin W)
    (hg : step.GetPrev = true) (hp : step.Plugin = some p)
    (hs : (rp = "PREDICATE" ∧ r.Predicate = some ((step :: rest) :: ls)) ∨
          (rp = "CACHE" ∧ r.Cache = some ((step :: rest) :: ls)) ∨
          (rp = "PROJECTION" ∧ r.Projection = some ((step :: rest) :: ls))) :
    (runProjection env r record rp w).outcome =
      .ret false none (some "FRONTS PREVIOUS IMPOSSIBLE") := by
  have hl : ∀ ds a, (runLine rp record [] (step :: rest) ds a).exit =
      .returned (.ret false none (some "FRONTS PREVIOUS IMPOSSIBLE")) := by
    intro ds a
    simp [runLine, evalStep, hg, hp]
  have hls : ∀ ds f a, (runLines rp record ((step :: rest) :: ls) ds f a).early =
      some (.ret false none (some "FRONTS PREVIOUS IMPOSSIBLE")) := by
    intro ds f a
    simp [runLines, hl]
  rcases hs with ⟨h, hs⟩ | ⟨h, hs⟩ | ⟨h, hs⟩ <;> subst h <;>
    simp [runProjection, hs, runStage, hls]


/-- The gate decision of the example line: the value `v` that the extractor finds is
compared with the literal held by the OPERATOR child. -/
theorem activeRule_decides {W : Type} (env : Env) (ext eq q : Plugin W) (resA resB : Val)
    (w w1 w2 : W) (v : String) (record : String)
    (hext : ext.runnable [.str "active", .str record] w = ((.str v, none), w1))
    (heq : eq.runnable [.str v, .str "true"] w1 = ((.bool (v == "true"), none), w2))
    (hq : v = "true" → (q.runnable [.str v, .str record] w2).1.2 = none) :
    (runProjection env (activeRule ext eq q resA resB) record "PREDICATE" w).outcome =
      .ret (v == "true") none none := by
  by_cases hv : v = "true"
  · subst hv
    have hq' := hq rfl
    simp [runProjection, activeRule, mkRule, runStage, runLines, activeLine, runLine, evalStep,
      evalMulti, evalArgs, finishStep, cacheWrite, invoke, hext, heq, runMultiArgs,
      operatorChild, isSendAll, hq', finishPass]
  · have hb : (v == "true") = false := by simpa using hv
    rw [hb] at heq
    simp [runProjection, activeRule, mkRule, runStage, runLines, activeLine, runLine, evalStep,
      evalMulti, evalArgs, finishStep, cacheWrite, invoke, hext, heq, runMultiArgs,
      operatorChild, isSendAll, finishPass, hb]


/-- C10: on the rule whose one predicate line extracts the field `active` and compares it,
through an OPERATOR child carrying the equality plugin, with the literal `"true"`
(`activeRule`; whatever results its two steps hold before the pass, so also freshly built):
`runProjection(record, "PREDICATE")` returns `(true, nil, nil)` for the record
`{"active":"true"}` and `(false, nil, nil)` for `{"active":"false"}`. The extractor yields
the field of the record, the operator plugin is string equality, and the plugin of the
second step does not fail. -/
theorem active_example {W : Type} (env : Env) (ext eq q : Plugin W) (resA resB : Val)
    (w wT wF : W)
    (hT : ext.runnable [.str "active", .str recordTrue] w = ((.str "true", none), wT))
    (hF : ext.runnable [.str "active", .str recordFalse] w = ((.str "false", none), wF))
    (heq : ∀ a b u, eq.runnable [.str a, .str b] u = ((.bool (a == b), none), u))
    (hq : (q.runnable [.str "true", .str recordTrue] wT).1.2 = none) :
    (runProjection env (activeRule ext eq q resA resB) recordTrue "PREDICATE" w).outcome =
      .ret true none none ∧
    (runProjection env (activeRule ext eq q resA resB) recordFalse "PREDICATE" w).outcome =
      .ret false none none :=
  ⟨activeRule_decides env ext eq q resA resB w wT wT "true" recordTrue hT (heq _ _ _)
      (fun _ => hq),
   activeRule_decides env ext eq q resA resB w wF wF "false" recordFalse hF (heq _ _ _)
      (fun h => absurd h (by decide))⟩

theorem active_example_witness :
    (runProjection (plainEnv false)
      (activeRule activeExtractor equalPlugin (constPlugin "NOOP" .nil) .nil .nil)
      recordTrue "PREDICATE" ()).outcome = .ret true none none ∧
    (runProjection (plainEnv false)
      (activeRule activeExtractor equalPlugin (constPlugin "NOOP" .nil) .nil .nil)
      recordFalse "PREDICATE" ()).outcome = .ret false none none :=
  active_example (plainEnv false) activeExtractor equalPlugin (constPlugin "NOOP" .nil)
    .nil .nil () () () (by decide) (by decide) (fun _ _ _ => rfl) (by decide)

/-! ### Gate rejection (C3) -/

theorem clean_concat {calls : List Call} {c : Call} (h : Clean calls) (hc : ¬ OpFalse c) :
    Clean (calls ++ [c]) := by
  intro c' hc'
  rcases List.mem_append.1 hc' with h' | h'
  · exact h c' h'
  · rw [List.mem_singleton.1 h']; exact hc

theorem gated_stop {calls : List Call} (c : Call) (h : Clean calls) :
    Gated (calls ++ [c]) (some (.ret false none none)) :=
  Or.inr ⟨calls, c, rfl, h, rfl⟩

theorem gated_clean {calls : List Call} (o : Option Outcome) (h : Clean calls) :
    Gated calls o := Or.inl h

@[simp] theorem invoke_calls {W : Type} (kind : CallKind) (p : Plugin W) (args : List Val)
    (a : Acc W) : (invoke kind p args a).2.calls =
      a.calls ++ [⟨kind, p.name, args, (p.runnable args a.world).1.1,
        (p.runnable args a.world).1.2⟩] := rfl

@[simp] theorem invoke_res {W : Type} (kind : CallKind) (p : Plugin W) (args : List Val)
    (a : Acc W) : (invoke kind p args a).1 = (p.runnable args a.world).1 := rfl

theorem runMultiArgs_gated {W : Type} (record : String) (sv : Option String) :
    ∀ (ks : List (Step W)) (vals : List Val) (a : Acc W), Clean a.calls →
      Gated (runMultiArgs record sv ks vals a).2.calls
        (runMultiArgs record sv ks vals a).1.outcome? := by
  intro ks
  induction ks with
  | nil => intro vals a h; exact gated_clean _ h
  | cons k ks ih =>
    intro vals a h
    unfold runMultiArgs
    dsimp only
    repeat' split
    all_goals first
      | exact gated_clean _ h
      | exact gated_stop _ h
      | exact ih _ _ (clean_concat h (by simp [OpFalse]))
      | exact gated_clean _ (clean_concat h (by simp_all [OpFalse]))

theorem gated_none {calls : List Call} (h : Gated calls none) : Clean calls := by
  rcases h with h | ⟨_, _, _, _, h⟩
  · exact h
  · cases h

theorem cacheWrite_clean {W : Type} (rp : String) (front : Option (Step W)) (step : Step W)
    (res : Val) (a a' : Acc W) (h : Clean a.calls)
    (hw : cacheWrite rp front step res a = some a') : Clean a'.calls := by
  unfold cacheWrite at hw
  repeat' split at hw
  all_goals first
    | (cases hw; exact h)
    | (cases hw; exact clean_concat h (by simp [OpFalse]))
    | cases hw

theorem finishStep_gated {W : Type} (rp : String) (front : Option (Step W)) (step : Step W)
    (res : Val) (err : Option String) (a : Acc W) (h : Clean a.calls) :
    Gated (finishStep rp front step res err a).acc.calls
      (finishStep rp front step res err a).exit.outcome? := by
  unfold finishStep
  split
  · exact gated_clean _ h
  · rename_i a' hw
    have h' := cacheWrite_clean rp front step res a a' h hw
    split <;> exact gated_clean _ h'

theorem evalArgs_gated {W : Type} (rp record : String) (front prev : Option (Step W))
    (step : Step W) (vals : List Val) (a : Acc W) (h : Clean a.calls) :
    Gated (evalArgs rp record front prev step vals a).acc.calls
      (evalArgs rp record front prev step vals a).exit.outcome? := by
  unfold evalArgs
  dsimp only
  repeat' split
  all_goals first
    | exact gated_clean _ h
    | exact gated_stop _ h
    | exact finishStep_gated _ _ _ _ _ _ h
    | exact finishStep_gated _ _ _ _ _ _ (clean_concat h (by simp [OpFalse]))
    | exact gated_clean _ (clean_concat h (by simp_all [OpFalse]))

theorem evalMulti_gated {W : Type} (rp record : String) (front prev : Option (Step W))
    (step : Step W) (vals : List Val) (a : Acc W) (h : Clean a.calls) :
    Gated (evalMulti rp record front prev step vals a).acc.calls
      (evalMulti rp record front prev step vals a).exit.outcome? := by
  unfold evalMulti
  split
  · repeat' split
    all_goals first
      | exact gated_clean _ h
      | exact evalArgs_gated _ _ _ _ _ _ _ h
  · rename_i k ks hk
    have hm := runMultiArgs_gated record step.Value (k :: ks) vals a h
    split
    · rename_i o a' he
      rw [he] at hm
      exact hm
    · rename_i vals' a' he
      rw [he] at hm
      exact evalArgs_gated _ _ _ _ _ _ _ (gated_none hm)

theorem evalStep_gated {W : Type} (rp record : String) (front prev : Option (Step W))
    (step : Step W) (a : Acc W) (h : Clean a.calls) :
    Gated (evalStep rp record front prev step a).acc.calls
      (evalStep rp record front prev step a).exit.outcome? := by
  unfold evalStep
  repeat' split
  all_goals first
    | exact gated_clean _ h
    | exact evalMulti_gated _ _ _ _ _ _ _ h

theorem runLine_gated {W : Type} (rp record : String) :
    ∀ (todo done : List (Step W)) (ds : Downstream) (a : Acc W), Clean a.calls →
      Gated (runLine rp record done todo ds a).acc.calls
        (runLine rp record done todo ds a).exit.outcome? := by
  intro todo
  induction todo with
  | nil => intro done ds a h; exact gated_clean _ h
  | cons step rest ih =>
    intro done ds a h
    have hs := evalStep_gated rp record done.head? done.getLast? step a h
    unfold runLine
    dsimp only
    split
    · rename_i o he
      rw [he] at hs
      exact hs
    · rename_i he
      rw [he] at hs
      exact ih _ _ _ (gated_none hs)
    · rename_i res he
      rw [he] at hs
      repeat' split
      all_goals first
        | exact gated_clean _ (gated_none hs)
        | exact ih _ _ _ (gated_none hs)

theorem runLines_gated {W : Type} (rp record : String) :
    ∀ (ls : List (Base W)) (ds : Downstream) (flag : Bool) (a : Acc W), Clean a.calls →
      Gated (runLines rp record ls ds flag a).acc.calls
        (runLines rp record ls ds flag a).early := by
  intro ls
  induction ls with
  | nil => intro ds flag a h; exact gated_clean _ h
  | cons l ls ih =>
    intro ds flag a h
    have hl := runLine_gated rp record l [] ds a h
    unfold runLines
    dsimp only
    split
    · rename_i o he
      rw [he] at hl
      exact hl
    · rename_i he
      rw [he] at hl
      exact ih _ _ _ (gated_none hl)
    · rename_i he
      rw [he] at hl
      exact ih _ _ _ (gated_none hl)

theorem runStage_gated {W : Type} (env : Env) (put : List (Base W) → Rulebase W)
    (ls : List (Base W)) (record rp : String) (w : W) :
    Clean (runStage env put ls record rp w).calls ∨
    ∃ pre c, (runStage env put ls record rp w).calls = pre ++ [c] ∧ Clean pre ∧
      (runStage env put ls record rp w).outcome = .ret false none none := by
  have h := runLines_gated rp record ls [] false ⟨w, []⟩ (by intro c hc; cases hc)
  unfold runStage
  dsimp only
  split
  · rename_i o he
    rw [he] at h
    rcases h with h | ⟨pre, c, h1, h2, h3⟩
    · exact Or.inl h
    · exact Or.inr ⟨pre, c, h1, h2, by cases h3; rfl⟩
  · rename_i he
    rw [he] at h
    exact Or.inl (gated_none h)

theorem runProjection_gated {W : Type} (env : Env) (r : Rulebase W) (record rp : String)
    (w : W) :
    Clean (runProjection env r record rp w).calls ∨
    ∃ pre c, (runProjection env r record rp w).calls = pre ++ [c] ∧ Clean pre ∧
      (runProjection env r record rp w).outcome = .ret false none none := by
  unfold runProjection
  repeat' split
  all_goals first
    | exact runStage_gated _ _ _ _ _ _
    | exact Or.inl (by intro c hc; cases hc)

/-- C3: in every stage and for every record, when an operator invocation of the pass (an
OPERATOR child of MultiArgs, or a cross-step OPERATOR step) answers `false`,
`runProjection` returns exactly `(false, nil, nil)` and that invocation is the last
plugin call of the pass. -/
theorem operator_false_rejects {W : Type} (env : Env) (r : Rulebase W) (record rp : String)
    (w : W) (pre post : List Call) (c : Call)
    (hc : (runProjection env r record rp w).calls = pre ++ c :: post)
    (hk : c.kind = .opChild ∨ c.kind = .crossOp) (hf : c.res = .bool false) :
    (runProjection env r record rp w).outcome = .ret false none none ∧ post = [] := by
  rcases runProjection_gated env r record rp w with h | ⟨pre', c', h1, h2, h3⟩
  · exact absurd ⟨hk, hf⟩ (h c (by rw [hc]; simp))
  · refine ⟨h3, ?_⟩
    rw [hc] at h1
    by_contra hne
    obtain ⟨post', x, hx⟩ : ∃ post' x, post = post' ++ [x] :=
      ⟨post.dropLast, post.getLast hne, (List.dropLast_append_getLast hne).symm⟩
    rw [hx] at h1
    have h1' : (pre ++ c :: post') ++ [x] = pre' ++ [c'] := by simpa using h1
    have := List.append_inj_left' h1' rfl
    exact h2 c (by rw [← this]; simp) ⟨hk, hf⟩


theorem operator_false_rejects_witness :
    (runProjection (plainEnv false) (rejectingRule false) "rec" "PREDICATE" ()).calls =
      [] ++ (⟨.opChild, "EQ", [.str "v", .str "x"], .bool false, none⟩ : Call) :: [] ∧
    (runProjection (plainEnv false) (rejectingRule false) "rec" "PREDICATE" ()).outcome =
      .ret false none none :=
  ⟨by decide,
   (operator_false_rejects (plainEnv false) (rejectingRule false) "rec" "PREDICATE" () [] []
      ⟨.opChild, "EQ", [.str "v", .str "x"], .bool false, none⟩ (by decide) (Or.inl rfl)
      rfl).1⟩

/-! ### Errors of plugin invocations (C4) -/

theorem noErr_concat {calls : List Call} {c : Call} (h : NoErr calls) (hc : ¬ ErrCall c) :
    NoErr (calls ++ [c]) := by
  intro c' hc'
  rcases List.mem_append.1 hc' with h' | h'
  · exact h c' h'
  · rw [List.mem_singleton.1 h']; exact hc

theorem noChildErr_concat {calls : List Call} {c : Call} (h : NoChildErr calls)
    (hc : ¬ ChildErr c) : NoChildErr (calls ++ [c]) := by
  intro c' hc'
  rcases List.mem_append.1 hc' with h' | h'
  · exact h c' h'
  · rw [List.mem_singleton.1 h']; exact hc

theorem noErr_noChildErr {calls : List Call} (h : NoErr calls) : NoChildErr calls :=
  fun c hc hce => h c hc ⟨hce.1, Or.inl hce.2⟩

theorem failed_ok {rp : String} {calls : List Call} (o : Option Outcome) (h : NoErr calls) :
    Failed rp calls o := Or.inl h

theorem failed_err {rp : String} {calls : List Call} (e : String) :
    Failed rp calls (some (.ret false none (some e))) := Or.inr (Or.inr ⟨e, rfl⟩)

theorem failed_none {rp : String} {calls : List Call} (h : Failed rp calls none) :
    NoErr calls := by
  rcases h with h | ⟨_, _, h⟩ | ⟨_, h⟩
  · exact h
  · cases h
  · cases h

theorem runMultiArgs_failed {W : Type} (rp record : String) (sv : Option String) :
    ∀ (ks : List (Step W)) (vals : List Val) (a : Acc W), NoErr a.calls →
      Failed rp (runMultiArgs record sv ks vals a).2.calls
        (runMultiArgs record sv ks vals a).1.outcome? := by
  intro ks
  induction ks with
  | nil => intro vals a h; exact failed_ok _ h
  | cons k ks ih =>
    intro vals a h
    unfold runMultiArgs
    dsimp only
    repeat' split
    all_goals first
      | exact failed_ok _ h
      | exact failed_err _
      | exact ih _ _ (noErr_concat h (by simp_all [ErrCall]))
      | exact failed_ok _ (noErr_concat h (by simp_all [ErrCall]))

theorem cacheWrite_noErr {W : Type} (rp : String) (front : Option (Step W)) (step : Step W)
    (res : Val) (a a' : Acc W) (h : NoErr a.calls)
    (hw : cacheWrite rp front step res a = some a') : NoErr a'.calls := by
  unfold cacheWrite at hw
  repeat' split at hw
  all_goals first
    | (cases hw; exact h)
    | (cases hw; exact noErr_concat h (by simp [ErrCall]))
    | cases hw

theorem cacheWrite_none {W : Type} (rp : String) (front : Option (Step W)) (step : Step W)
    (res : Val) (a : Acc W) (hw : cacheWrite rp front step res a = none) : rp = "CACHE" := by
  unfold cacheWrite at hw
  split at hw
  · assumption
  · cases hw

theorem finishStep_failed {W : Type} (rp : String) (front : Option (Step W)) (step : Step W)
    (res : Val) (err : Option String) (a : Acc W) (hc : NoChildErr a.calls)
    (h : err = none → NoErr a.calls) :
    Failed rp (finishStep rp front step res err a).acc.calls
      (finishStep rp front step res err a).exit.outcome? := by
  unfold finishStep
  split
  · rename_i hw
    cases err with
    | none => exact failed_ok _ (h rfl)
    | some e => exact Or.inr (Or.inl ⟨hc, cacheWrite_none _ _ _ _ _ hw, rfl⟩)
  · rename_i a' hw
    split
    · exact failed_err _
    · exact failed_ok _ (cacheWrite_noErr rp front step res a a' (h rfl) hw)

theorem evalArgs_failed {W : Type} (rp record : String) (front prev : Option (Step W))
    (step : Step W) (vals : List Val) (a : Acc W) (h : NoErr a.calls) :
    Failed rp (evalArgs rp record front prev step vals a).acc.calls
      (evalArgs rp record front prev step vals a).exit.outcome? := by
  unfold evalArgs
  dsimp only
  repeat' split
  all_goals first
    | exact failed_ok _ h
    | exact finishStep_failed _ _ _ _ _ _ (noErr_noChildErr h) (fun _ => h)
    | exact finishStep_failed _ _ _ _ _ _
        (noChildErr_concat (noErr_noChildErr h) (by simp [ChildErr]))
        (fun he => noErr_concat h (by simp_all [ErrCall]))
    | exact failed_ok _ (noErr_concat h (by simp_all [ErrCall]))

theorem evalMulti_failed {W : Type} (rp record : String) (front prev : Option (Step W))
    (step : Step W) (vals : List Val) (a : Acc W) (h : NoErr a.calls) :
    Failed rp (evalMulti rp record front prev step vals a).acc.calls
      (evalMulti rp record front prev step vals a).exit.outcome? := by
  unfold evalMulti
  split
  · repeat' split
    all_goals first
      | exact failed_ok _ h
      | exact evalArgs_failed _ _ _ _ _ _ _ h
  · rename_i k ks hk
    have hm := runMultiArgs_failed rp record step.Value (k :: ks) vals a h
    split
    · rename_i o a' he
      rw [he] at hm
      exact hm
    · rename_i vals' a' he
      rw [he] at hm
      exact evalArgs_failed _ _ _ _ _ _ _ (failed_none hm)

theorem evalStep_failed {W : Type} (rp record : String) (front prev : Option (Step W))
    (step : Step W) (a : Acc W) (h : NoErr a.calls) :
    Failed rp (evalStep rp record front prev step a).acc.calls
      (evalStep rp record front prev step a).exit.outcome? := by
  unfold evalStep
  repeat' split
  all_goals first
    | exact failed_ok _ h
    | exact failed_err _
    | exact evalMulti_failed _ _ _ _ _ _ _ h

theorem runLine_failed {W : Type} (rp record : String) :
    ∀ (todo done : List (Step W)) (ds : Downstream) (a : Acc W), NoErr a.calls →
      Failed rp (runLine rp record done todo ds a).acc.calls
        (runLine rp record done todo ds a).exit.outcome? := by
  intro todo
  induction todo with
  | nil => intro done ds a h; exact failed_ok _ h
  | cons step rest ih =>
    intro done ds a h
    have hs := evalStep_failed rp record done.head? done.getLast? step a h
    unfold runLine
    dsimp only
    split
    · rename_i o he
      rw [he] at hs
      exact hs
    · rename_i he
      rw [he] at hs
      exact ih _ _ _ (failed_none hs)
    · rename_i res he
      rw [he] at hs
      repeat' split
      all_goals first
        | exact failed_ok _ (failed_none hs)
        | exact ih _ _ _ (failed_none hs)

theorem runLines_failed {W : Type} (rp record : String) :
    ∀ (ls : List (Base W)) (ds : Downstream) (flag : Bool) (a : Acc W), NoErr a.calls →
      Failed rp (runLines rp record ls ds flag a).acc.calls
        (runLines rp record ls ds flag a).early := by
  intro ls
  induction ls with
  | nil => intro ds flag a h; exact failed_ok _ h
  | cons l ls ih =>
    intro ds flag a h
    have hl := runLine_failed rp record l [] ds a h
    unfold runLines
    dsimp only
    split
    · rename_i o he
      rw [he] at hl
      exact hl
    · rename_i he
      rw [he] at hl
      exact ih _ _ _ (failed_none hl)
    · rename_i he
      rw [he] at hl
      exact ih _ _ _ (failed_none hl)

theorem runStage_failed {W : Type} (env : Env) (put : List (Base W) → Rulebase W)
    (ls : List (Base W)) (record rp : String) (w : W) :
    Failed rp (runStage env put ls record rp w).calls
      (some (runStage env put ls record rp w).outcome) := by
  have h := runLines_failed rp record ls [] false ⟨w, []⟩ (by intro c hc; cases hc)
  unfold runStage
  dsimp only
  split
  · rename_i o he
    rw [he] at h
    exact h
  · rename_i he
    rw [he] at h
    exact failed_ok _ (failed_none h)

theorem runProjection_failed {W : Type} (env : Env) (r : Rulebase W) (record rp : String)
    (w : W) :
    Failed rp (runProjection env r record rp w).calls
      (some (runProjection env r record rp w).outcome) := by
  unfold runProjection
  repeat' split
  all_goals first
    | exact runStage_failed _ _ _ _ _ _
    | exact failed_ok _ (by intro c hc; cases hc)

/-- C4, as the code has it: when a MultiArgs child that is no OPERATOR returns an error,
`runProjection` returns `(false, nil, err)` with a non-nil error; when the normal
evaluation of a step returns an error, it returns such an error too in the PREDICATE and
PROJECTION stages, and in the CACHE stage it returns such an error unless it panics in the
cache-store write, which there precedes the check of the error. (Errors returned by the
operator invocations are dropped and are no part of this statement.) -/
theorem compute_error_aborts {W : Type} (env : Env) (r : Rulebase W) (record rp : String)
    (w : W) (c : Call) (hc : c ∈ (runProjection env r record rp w).calls)
    (he : c.err ≠ none) :
    (c.kind = .child →
      ∃ e, (runProjection env r record rp w).outcome = .ret false none (some e)) ∧
    (c.kind = .normal →
      (∃ e, (runProjection env r record rp w).outcome = .ret false none (some e)) ∨
      (rp = "CACHE" ∧ (runProjection env r record rp w).outcome = .panic)) := by
  rcases runProjection_failed env r record rp w with h | ⟨h1, h2, h3⟩ | ⟨e, h⟩
  · constructor
    · intro hk; exact absurd ⟨he, Or.inl hk⟩ (h c hc)
    · intro hk; exact absurd ⟨he, Or.inr hk⟩ (h c hc)
  · constructor
    · intro hk; exact absurd ⟨he, hk⟩ (h1 c hc)
    · intro _; exact Or.inr ⟨h2, (Option.some.inj h3)⟩
  · have h' : (runProjection env r record rp w).outcome = .ret false none (some e) :=
      Option.some.inj h
    exact ⟨fun _ => ⟨e, h'⟩, fun _ => Or.inl ⟨e, h'⟩⟩

theorem compute_error_aborts_witness :
    (⟨.normal, "GET", [.str "v", .str "rec"], .nil, some "failed"⟩ : Call) ∈
      (runProjection (plainEnv false) failingStepRule "rec" "PREDICATE" ()).calls ∧
    ((∃ e, (runProjection (plainEnv false) failingStepRule "rec" "PREDICATE" ()).outcome =
        .ret false none (some e)) ∨
      ("PREDICATE" = "CACHE" ∧
        (runProjection (plainEnv false) failingStepRule "rec" "PREDICATE" ()).outcome =
          .panic)) :=
  ⟨by decide,
   (compute_error_aborts (plainEnv false) failingStepRule "rec" "PREDICATE" ()
      ⟨.normal, "GET", [.str "v", .str "rec"], .nil, some "failed"⟩ (by decide)
      (by decide)).2 rfl⟩

/-- C4 as stated fails for the operator invocations: a cross-step OPERATOR step whose
plugin answers `false` with an error makes the pass return the gate decision
`(false, nil, nil)`, and an OPERATOR child whose plugin answers `true` with an error lets
the pass go on and return `(true, nil, nil)`. -/
theorem operator_error_dropped_counterexample :
    ((runProjection (plainEnv false) crossOpErrRule "rec" "PREDICATE" ()).calls =
      [⟨.normal, "GET", [.str "v", .str "rec"], .str "x", none⟩,
       ⟨.crossOp, "EQ", [.str "x", .nil], .bool false, some "failed"⟩] ∧
     (runProjection (plainEnv false) crossOpErrRule "rec" "PREDICATE" ()).outcome =
      .ret false none none) ∧
    ((runProjection (plainEnv false) opChildErrRule "rec" "PREDICATE" ()).calls =
      [⟨.opChild, "EQ", [.str "v", .str "x"], .bool true, some "failed"⟩,
       ⟨.normal, "NOOP", [.str "rec"], .nil, none⟩] ∧
     (runProjection (plainEnv false) opChildErrRule "rec" "PREDICATE" ()).outcome =
      .ret true none none) := by
  decide

/-! ### SENDALL (C1) -/

theorem adds_refl (Q : Call → Prop) (l : List Call) : Adds Q l l :=
  fun _ hc _ => Or.inl hc

theorem adds_trans {Q : Call → Prop} {l1 l2 l3 : List Call} (h12 : Adds Q l1 l2)
    (h23 : Adds Q l2 l3) : Adds Q l1 l3 := by
  intro c hc hk
  rcases h23 c hc hk with h | h
  · exact h12 c h hk
  · exact Or.inr h

theorem adds_mono {Q Q' : Call → Prop} {l1 l2 : List Call} (h : Adds Q l1 l2)
    (hq : ∀ c, Q c → Q' c) : Adds Q' l1 l2 := by
  intro c hc hk
  rcases h c hc hk with h | h
  · exact Or.inl h
  · exact Or.inr (hq c h)

theorem adds_other {Q : Call → Prop} {l : List Call} {c : Call} (hc : c.kind ≠ .normal) :
    Adds Q l (l ++ [c]) := by
  intro c' hc' hk
  rcases List.mem_append.1 hc' with h | h
  · exact Or.inl h
  · rw [List.mem_singleton.1 h] at hk; exact absurd hk hc

theorem adds_normal {Q : Call → Prop} {l : List Call} {c : Call} (hc : Q c) :
    Adds Q l (l ++ [c]) := by
  intro c' hc' _
  rcases List.mem_append.1 hc' with h | h
  · exact Or.inl h
  · rw [List.mem_singleton.1 h]; exact Or.inr hc

theorem runMultiArgs_adds {W : Type} (record : String) (sv : Option String) :
    ∀ (ks : List (Step W)) (vals : List Val) (a : Acc W),
      Adds (fun _ => False) a.calls (runMultiArgs record sv ks vals a).2.calls := by
  intro ks
  induction ks with
  | nil => intro vals a; exact adds_refl _ _
  | cons k ks ih =>
    intro vals a
    unfold runMultiArgs
    dsimp only
    repeat' split
    all_goals first
      | exact adds_refl _ _
      | exact adds_other (by simp)
      | exact adds_trans (adds_other (by simp)) (ih _ _)

theorem cacheWrite_adds {W : Type} (rp : String) (front : Option (Step W)) (step : Step W)
    (res : Val) (a a' : Acc W) (hw : cacheWrite rp front step res a = some a') :
    Adds (fun _ => False) a.calls a'.calls := by
  unfold cacheWrite at hw
  repeat' split at hw
  all_goals first
    | (cases hw; exact adds_refl _ _)
    | (cases hw; exact adds_other (by simp))
    | cases hw

theorem finishStep_adds {W : Type} (rp : String) (front : Option (Step W)) (step : Step W)
    (res : Val) (err : Option String) (a : Acc W) :
    Adds (fun _ => False) a.calls (finishStep rp front step res err a).acc.calls := by
  unfold finishStep
  split
  · exact adds_refl _ _
  · rename_i a' hw
    split <;> exact cacheWrite_adds rp front step res a a' hw

theorem finishStep_not_skipped {W : Type} (rp : String) (front : Option (Step W))
    (step : Step W) (res : Val) (err : Option String) (a : Acc W) :
    (finishStep rp front step res err a).exit ≠ .skipped := by
  unfold finishStep
  repeat' split
  all_goals simp

theorem evalArgs_adds {W : Type} (rp record : String) (front prev : Option (Step W))
    (step : Step W) (vals : List Val) (a : Acc W) :
    Adds (fun c => (evalArgs rp record front prev step vals a).exit ≠ .skipped ∧
        ∃ p, step.Plugin = some p ∧ c.plugin = p.name)
      a.calls (evalArgs rp record front prev step vals a).acc.calls := by
  unfold evalArgs
  dsimp only
  repeat' split
  all_goals first
    | exact adds_refl _ _
    | exact adds_other (by simp)
    | exact adds_mono (finishStep_adds _ _ _ _ _ _) (fun _ h => absurd h id)
    | exact adds_trans
        (adds_normal ⟨finishStep_not_skipped _ _ _ _ _ _, _, by assumption, rfl⟩)
        (adds_mono (finishStep_adds _ _ _ _ _ _) (fun _ h => absurd h id))

theorem evalMulti_adds {W : Type} (rp record : String) (front prev : Option (Step W))
    (step : Step W) (vals : List Val) (a : Acc W) :
    Adds (fun c => (evalMulti rp record front prev step vals a).exit ≠ .skipped ∧
        ∃ p, step.Plugin = some p ∧ c.plugin = p.name)
      a.calls (evalMulti rp record front prev step vals a).acc.calls := by
  unfold evalMulti
  split
  · repeat' split
    all_goals first
      | exact adds_refl _ _
      | exact evalArgs_adds _ _ _ _ _ _ _
  · rename_i k ks hk
    have hm := runMultiArgs_adds record step.Value (k :: ks) vals a
    split
    · rename_i o a' he
      rw [he] at hm
      exact adds_mono hm (fun _ h => absurd h id)
    · rename_i vals' a' he
      rw [he] at hm
      exact adds_trans (adds_mono hm (fun _ h => absurd h id)) (evalArgs_adds _ _ _ _ _ _ _)

theorem evalStep_adds {W : Type} (rp record : String) (front prev : Option (Step W))
    (step : Step W) (a : Acc W) :
    Adds (fun c => (evalStep rp record front prev step a).exit ≠ .skipped ∧
        ∃ p, step.Plugin = some p ∧ c.plugin = p.name)
      a.calls (evalStep rp record front prev step a).acc.calls := by
  unfold evalStep
  repeat' split
  all_goals first
    | exact adds_refl _ _
    | exact evalMulti_adds _ _ _ _ _ _ _

theorem runLine_adds {W : Type} (record : String) :
    ∀ (todo done : List (Step W)) (ds : Downstream) (a : Acc W),
      (runLine "PROJECTION" record done todo ds a).exit = .finished →
      Adds NotSendAll a.calls (runLine "PROJECTION" record done todo ds a).acc.calls := by
  intro todo
  induction todo with
  | nil => intro done ds a _; exact adds_refl _ _
  | cons step rest ih =>
    intro done ds a
    have hs := evalStep_adds "PROJECTION" record done.head? done.getLast? step a
    unfold runLine
    dsimp only
    split
    · intro h; cases h
    · rename_i he
      intro h
      refine adds_trans (adds_mono hs ?_) (ih _ _ _ h)
      intro c hc
      exact absurd he hc.1
    · rename_i res he
      simp only [if_true]
      split
      · intro h; cases h
      · rename_i hsa
        split
        · intro h; cases h
        · intro h
          refine adds_trans (adds_mono hs ?_) (ih _ _ _ h)
          rintro c ⟨_, p, hp, hn⟩
          unfold NotSendAll
          rw [hn]
          simpa [isSendAll, hp] using hsa

theorem runLines_adds {W : Type} (record : String) :
    ∀ (ls : List (Base W)) (ds : Downstream) (flag : Bool) (a : Acc W),
      (runLines "PROJECTION" record ls ds flag a).early = none →
      (flag = true → (runLines "PROJECTION" record ls ds flag a).sendAllFlag = true) ∧
      ((runLines "PROJECTION" record ls ds flag a).sendAllFlag = false →
        Adds NotSendAll a.calls (runLines "PROJECTION" record ls ds flag a).acc.calls) := by
  intro ls
  induction ls with
  | nil => intro ds flag a _; exact ⟨fun h => h, fun _ => adds_refl _ _⟩
  | cons l ls ih =>
    intro ds flag a
    have hl := runLine_adds record l [] ds a
    unfold runLines
    dsimp only
    split
    · intro h; cases h
    · rename_i he
      intro h
      obtain ⟨h1, h2⟩ := ih _ flag _ h
      exact ⟨h1, fun hf => adds_trans (hl he) (h2 hf)⟩
    · rename_i he
      intro h
      obtain ⟨h1, h2⟩ := ih _ true _ h
      refine ⟨fun _ => h1 rfl, fun hf => ?_⟩
      rw [h1 rfl] at hf
      cases hf

theorem runMultiArgs_rejects {W : Type} (record : String) (sv : Option String) :
    ∀ (ks : List (Step W)) (vals : List Val) (a : Acc W) (o : Outcome),
      (runMultiArgs record sv ks vals a).1 = .returned o → o.passed = false := by
  intro ks
  induction ks with
  | nil => intro vals a o h; simp [runMultiArgs] at h
  | cons k ks ih =>
    intro vals a o
    unfold runMultiArgs
    dsimp only
    repeat' split
    all_goals first
      | exact ih _ _ _
      | (intro h; cases h; rfl)
      | (intro h; cases h)

theorem finishStep_rejects {W : Type} (rp : String) (front : Option (Step W)) (step : Step W)
    (res : Val) (err : Option String) (a : Acc W) (o : Outcome) :
    (finishStep rp front step res err a).exit = .returned o → o.passed = false := by
  unfold finishStep
  repeat' split
  all_goals first
    | (intro h; cases h; rfl)
    | (intro h; cases h)

theorem evalArgs_rejects {W : Type} (rp record : String) (front prev : Option (Step W))
    (step : Step W) (vals : List Val) (a : Acc W) (o : Outcome) :
    (evalArgs rp record front prev step vals a).exit = .returned o → o.passed = false := by
  unfold evalArgs
  dsimp only
  repeat' split
  all_goals first
    | exact finishStep_rejects _ _ _ _ _ _ _
    | (intro h; cases h; rfl)
    | (intro h; cases h)

theorem evalMulti_rejects {W : Type} (rp record : String) (front prev : Option (Step W))
    (step : Step W) (vals : List Val) (a : Acc W) (o : Outcome) :
    (evalMulti rp record front prev step vals a).exit = .returned o → o.passed = false := by
  unfold evalMulti
  split
  · repeat' split
    all_goals first
      | exact evalArgs_rejects _ _ _ _ _ _ _ _
      | (intro h; cases h; rfl)
  · rename_i k ks hk
    have hm := runMultiArgs_rejects record step.Value (k :: ks) vals a
    split
    · rename_i o' a' he
      rw [he] at hm
      intro h
      cases h
      exact hm _ rfl
    · exact evalArgs_rejects _ _ _ _ _ _ _ _

theorem evalStep_rejects {W : Type} (rp record : String) (front prev : Option (Step W))
    (step : Step W) (a : Acc W) (o : Outcome) :
    (evalStep rp record front prev step a).exit = .returned o → o.passed = false := by
  unfold evalStep
  repeat' split
  all_goals first
    | exact evalMulti_rejects _ _ _ _ _ _ _ _
    | (intro h; cases h; rfl)

theorem runLine_rejects {W : Type} (rp record : String) :
    ∀ (todo done : List (Step W)) (ds : Downstream) (a : Acc W) (o : Outcome),
      (runLine rp record done todo ds a).exit = .returned o → o.passed = false := by
  intro todo
  induction todo with
  | nil => intro done ds a o h; simp [runLine] at h
  | cons step rest ih =>
    intro done ds a o
    have hs := evalStep_rejects rp record done.head? done.getLast? step a
    unfold runLine
    dsimp only
    repeat' split
    all_goals first
      | exact ih _ _ _ _
      | (intro h; cases h; exact hs _ (by assumption))
      | (intro h; cases h; rfl)
      | (intro h; cases h)

theorem runLines_rejects {W : Type} (rp record : String) :
    ∀ (ls : List (Base W)) (ds : Downstream) (flag : Bool) (a : Acc W) (o : Outcome),
      (runLines rp record ls ds flag a).early = some o → o.passed = false := by
  intro ls
  induction ls with
  | nil => intro ds flag a o h; simp [runLines] at h
  | cons l ls ih =>
    intro ds flag a o
    have hl := runLine_rejects rp record l [] ds a
    unfold runLines
    dsimp only
    repeat' split
    all_goals first
      | exact ih _ _ _ _
      | (intro h; cases h; exact hl _ (by assumption))

theorem runStage_sendAll {W : Type} (env : Env) (put : List (Base W) → Rulebase W)
    (ls : List (Base W)) (record : String) (w : W) (c : Call) (out : Option Bytes)
    (err : Option String)
    (hc : c ∈ (runStage env put ls record "PROJECTION" w).calls)
    (hk : c.kind = .normal) (hn : c.plugin = "SENDALL")
    (ho : (runStage env put ls record "PROJECTION" w).outcome = .ret true out err) :
    out = some record ∧ err = none := by
  cases he : (runLines "PROJECTION" record ls [] false ⟨w, []⟩).early with
  | some o =>
    simp only [runStage, he] at ho
    have := runLines_rejects _ _ _ _ _ _ _ he
    rw [ho] at this
    cases this
  | none =>
    simp only [runStage, he] at hc ho
    obtain ⟨_, h2⟩ := runLines_adds record ls [] false ⟨w, []⟩ he
    cases hf : (runLines "PROJECTION" record ls [] false ⟨w, []⟩).sendAllFlag
    · rcases h2 hf c hc hk with h | h
      · cases h
      · exact absurd hn h
    · simp only [finishPass, hf, if_true] at ho
      cases ho
      exact ⟨rfl, rfl⟩

/-- In a PROJECTION pass in which a step whose plugin is named SENDALL is evaluated (its
plugin invoked by the normal evaluation), if `runProjection` returns `passed = true` then
the error is nil and the output bytes are the bytes of the record payload. -/
theorem sendAll_call_passed_output {W : Type} (env : Env) (r : Rulebase W) (record : String)
    (w : W) (c : Call) (out : Option Bytes) (err : Option String)
    (hc : c ∈ (runProjection env r record "PROJECTION" w).calls)
    (hk : c.kind = .normal) (hn : c.plugin = "SENDALL")
    (ho : (runProjection env r record "PROJECTION" w).outcome = .ret true out err) :
    out = some record ∧ err = none := by
  unfold runProjection at hc ho
  simp only [String.reduceEq, if_false, if_true] at hc ho
  cases hp : r.Projection with
  | none => simp only [hp] at ho; cases ho
  | some ls =>
    simp only [hp] at hc ho
    exact runStage_sendAll env _ ls record w c out err hc hk hn ho

theorem sendAll_call_passed_output_example :
    (⟨.normal, "SENDALL", [.str "x", .str "rec"], .nil, none⟩ : Call) ∈
      (runProjection (plainEnv false) (passThroughRule false) "rec" "PROJECTION" ()).calls ∧
    (runProjection (plainEnv false) (passThroughRule false) "rec" "PROJECTION" ()).outcome =
      .ret true (some "rec") none ∧
    (some "rec" = some "rec" ∧ (none : Option String) = none) :=
  ⟨by decide, by decide,
   sendAll_call_passed_output (plainEnv false) (passThroughRule false) "rec" ()
      ⟨.normal, "SENDALL", [.str "x", .str "rec"], .nil, none⟩ (some "rec") none
      (by decide) rfl rfl (by decide)⟩

/-- C1 as stated fails: a projection that holds a SENDALL step returns `(false, nil, nil)`
when a line before that step rejects the record; the SENDALL step is then never reached
and its plugin never invoked. -/
theorem sendAll_not_unconditional_counterexample :
    gatedSendAllRule.Projection = some [[gateStep], [sendAllStep]] ∧
    isSendAll sendAllStep = true ∧
    (runProjection (plainEnv false) gatedSendAllRule "rec" "PROJECTION" ()).outcome =
      .ret false none none ∧
    (runProjection (plainEnv false) gatedSendAllRule "rec" "PROJECTION" ()).calls =
      [⟨.opChild, "EQ", [.str "v", .str "x"], .bool false, none⟩] :=
  ⟨rfl, by decide, by decide, by decide⟩

theorem sendAll_then_gate_rejects :
    sendAllThenGateRule.Projection = some [[sendAllStep], [gateStep]] ∧
    (runProjection (plainEnv false) sendAllThenGateRule "rec" "PROJECTION" ()).outcome =
      .ret false none none :=
  ⟨rfl, by decide⟩

/-! ### The output document (C2) -/

theorem get_set (ds : Downstream) (k k' : String) (v : Val) :
    (ds.set k v).get k' = if k = k' then some v else ds.get k' := by
  induction ds with
  | nil => simp [Downstream.set, Downstream.get]
  | cons p m ih =>
    obtain ⟨k0, v0⟩ := p
    simp only [Downstream.set]
    split_ifs with h1 h2 h3 <;> simp_all [Downstream.get]

theorem get_applyWrites (ws : List (String × Val)) :
    ∀ (ds : Downstream) (k : String),
      (applyWrites ds ws).get k =
        match lastWrite ws k with
        | some v => some v
        | none => ds.get k := by
  induction ws with
  | nil => intro ds k; rfl
  | cons p ws ih =>
    intro ds k
    obtain ⟨k0, v0⟩ := p
    show (applyWrites (ds.set k0 v0) ws).get k = _
    rw [ih]
    cases h : lastWrite ws k with
    | some v => simp only [lastWrite, h]
    | none =>
      simp only [lastWrite, h, get_set]
      by_cases hk : k0 = k <;> simp [hk]

theorem lastWrite_isSome (ws : List (String × Val)) (k : String) :
    (lastWrite ws k).isSome = true ↔ ∃ v, (k, v) ∈ ws := by
  induction ws with
  | nil => simp [lastWrite]
  | cons p ws ih =>
    obtain ⟨k0, v0⟩ := p
    unfold lastWrite
    cases h : lastWrite ws k with
    | some v =>
      rw [h] at ih
      obtain ⟨v', hv'⟩ := ih.1 rfl
      simp only [Option.isSome_some, true_iff]
      exact ⟨v', List.mem_cons_of_mem _ hv'⟩
    | none =>
      rw [h] at ih
      have hn : ¬ ∃ v, (k, v) ∈ ws := fun hh => by simpa using ih.2 hh
      by_cases hk : k0 = k
      · subst hk
        simp
      · simp only [hk, if_false, Option.isSome_none]
        constructor
        · intro hh; cases hh
        · rintro ⟨v, hv⟩
          rcases List.mem_cons.1 hv with h1 | h1
          · cases h1; exact absurd rfl hk
          · exact absurd ⟨v, h1⟩ hn

theorem finishStep_nodeOK {W : Type} (rp : String) (front prev : Option (Step W))
    (step : Step W) (res : Val) (err : Option String) (a : Acc W)
    (h : prev = none ∨ step.Value ≠ some "OPERATOR") :
    NodeOK prev step (finishStep rp front step res err a) := by
  unfold finishStep
  repeat' split
  all_goals simp [NodeOK, h]

theorem evalArgs_nodeOK {W : Type} (rp record : String) (front prev : Option (Step W))
    (step : Step W) (vals : List Val) (a : Acc W) (hrp : rp ≠ "CACHE") :
    NodeOK prev step (evalArgs rp record front prev step vals a) := by
  unfold evalArgs
  dsimp only
  repeat' split
  all_goals first
    | (apply finishStep_nodeOK; simp_all)
    | (simp_all [NodeOK])

theorem evalMulti_nodeOK {W : Type} (rp record : String) (front prev : Option (Step W))
    (step : Step W) (vals : List Val) (a : Acc W) (hrp : rp ≠ "CACHE") :
    NodeOK prev step (evalMulti rp record front prev step vals a) := by
  unfold evalMulti
  repeat' split
  all_goals first
    | exact evalArgs_nodeOK _ _ _ _ _ _ _ hrp
    | (simp [NodeOK])

theorem evalStep_nodeOK {W : Type} (rp record : String) (front prev : Option (Step W))
    (step : Step W) (a : Acc W) (hrp : rp ≠ "CACHE") :
    NodeOK prev step (evalStep rp record front prev step a) := by
  unfold evalStep
  repeat' split
  all_goals first
    | exact evalMulti_nodeOK _ _ _ _ _ _ _ hrp
    | (simp [NodeOK])

theorem applyWrites_append (ds : Downstream) (ws ws' : List (String × Val)) :
    applyWrites ds (ws ++ ws') = applyWrites (applyWrites ds ws) ws' := by
  simp [applyWrites, List.foldl_append]

theorem runLine_noSendAll {W : Type} (record : String) :
    ∀ (todo done : List (Step W)) (ds : Downstream) (a : Acc W),
      (∀ s ∈ todo, isSendAll s = false) →
      (runLine "PROJECTION" record done todo ds a).exit ≠ .sendAll := by
  intro todo
  induction todo with
  | nil => intro done ds a _; simp [runLine]
  | cons step rest ih =>
    intro done ds a hns
    have hstep : isSendAll step = false := hns step (List.mem_cons_self _ _)
    have hrest : ∀ s ∈ rest, isSendAll s = false :=
      fun s hs => hns s (List.mem_cons_of_mem _ hs)
    unfold runLine
    dsimp only
    simp only [if_true, hstep, Bool.false_eq_true, if_false]
    repeat' split
    all_goals first
      | exact ih _ _ _ hrest
      | simp

theorem isEmpty_concat {α : Type} (l : List α) (x : α) : (l ++ [x]).isEmpty = false := by
  cases l <;> rfl

theorem runLine_writes {W : Type} (record : String) :
    ∀ (todo done : List (Step W)) (ds : Downstream) (a : Acc W),
      (∀ s ∈ todo, isSendAll s = false) →
      (runLine "PROJECTION" record done todo ds a).exit = .finished →
      ∃ nodes, (runLine "PROJECTION" record done todo ds a).line = done ++ nodes ∧
        nodes.map (·.ID) = todo.map (·.ID) ∧
        (runLine "PROJECTION" record done todo ds a).downstream =
          applyWrites ds (lineWrites done.isEmpty nodes) := by
  intro todo
  induction todo with
  | nil => intro done ds a _ _; exact ⟨[], by simp [runLine], rfl, rfl⟩
  | cons step rest ih =>
    intro done ds a hns
    have hn := evalStep_nodeOK "PROJECTION" record done.head? done.getLast? step a (by decide)
    have hstep : isSendAll step = false := hns step (List.mem_cons_self _ _)
    have hrest : ∀ s ∈ rest, isSendAll s = false :=
      fun s hs => hns s (List.mem_cons_of_mem _ hs)
    unfold runLine
    dsimp only
    split
    · intro h; cases h
    · rename_i he
      intro h
      obtain ⟨nodes, h1, hm, h2⟩ := ih _ _ _ hrest h
      obtain ⟨hi, hp, hv⟩ := hn.2 he
      refine ⟨(evalStep "PROJECTION" record done.head? done.getLast? step a).node :: nodes,
        by rw [h1]; simp, by simp [hm, hi], ?_⟩
      rw [h2, isEmpty_concat]
      have hd : done.isEmpty = false := by
        cases done with
        | nil => simp at hp
        | cons _ _ => rfl
      simp [lineWrites, hd, hv]
    · rename_i res he
      simp only [if_true, hstep, Bool.false_eq_true, if_false]
      split
      · intro h; cases h
      · rename_i id hid
        intro h
        obtain ⟨nodes, h1, hm, h2⟩ := ih _ _ _ hrest h
        obtain ⟨hi, hr, hv⟩ := hn.1 res he
        refine ⟨(evalStep "PROJECTION" record done.head? done.getLast? step a).node :: nodes,
          by rw [h1]; simp, by simp [hm, hi], ?_⟩
        rw [h2, isEmpty_concat]
        have hc : done.isEmpty = true ∨
            (evalStep "PROJECTION" record done.head? done.getLast? step a).node.Value
              ≠ some "OPERATOR" := by
          rcases hv with hv | hv
          · left
            cases done with
            | nil => rfl
            | cons x xs => simp [List.getLast?_cons_cons] at hv
          · exact Or.inr hv
        simp only [lineWrites, hc, if_true, hi, hid, hr]
        simp [applyWrites]

theorem runLines_writes {W : Type} (record : String) :
    ∀ (ls : List (Base W)) (ds : Downstream) (a : Acc W),
      (∀ l ∈ ls, ∀ s ∈ l, isSendAll s = false) →
      (runLines "PROJECTION" record ls ds false a).early = none →
      (runLines "PROJECTION" record ls ds false a).sendAllFlag = false ∧
      (runLines "PROJECTION" record ls ds false a).lines.map (fun l => l.map (·.ID)) =
        ls.map (fun l => l.map (·.ID)) ∧
      (runLines "PROJECTION" record ls ds false a).downstream =
        applyWrites ds (stageWrites (runLines "PROJECTION" record ls ds false a).lines) := by
  intro ls
  induction ls with
  | nil => intro ds a _ _; exact ⟨rfl, rfl, rfl⟩
  | cons l ls ih =>
    intro ds a hns
    have hl := runLine_writes record l [] ds a (hns l (List.mem_cons_self _ _))
    have hrest : ∀ l' ∈ ls, ∀ s ∈ l', isSendAll s = false :=
      fun l' hl' => hns l' (List.mem_cons_of_mem _ hl')
    unfold runLines
    dsimp only
    split
    · intro h; cases h
    · rename_i he
      intro h
      obtain ⟨nodes, h1, hm, h2⟩ := hl he
      obtain ⟨h3, hm', h4⟩ := ih _ _ hrest h
      refine ⟨h3, ?_, ?_⟩
      · rw [h1]
        simpa [hm] using hm'
      · rw [h4, h2, h1]
        simp [stageWrites, applyWrites_append]
    · rename_i he
      have hsa := runLine_noSendAll record l [] ds a (hns l (List.mem_cons_self _ _))
      exact absurd he hsa

theorem runStage_document {W : Type} (env : Env) (put : List (Base W) → Rulebase W)
    (ls : List (Base W)) (record : String) (w : W) (out : Option Bytes)
    (hns : ∀ l ∈ ls, ∀ s ∈ l, isSendAll s = false)
    (ho : (runStage env put ls record "PROJECTION" w).outcome = .ret true out none) :
    ∃ ls' bytes, (runStage env put ls record "PROJECTION" w).rulebase = put ls' ∧
      ls'.map (fun l => l.map (·.ID)) = ls.map (fun l => l.map (·.ID)) ∧
      out = some bytes ∧
      env.jsonMarshal (runStage env put ls record "PROJECTION" w).downstream = .ok bytes ∧
      (runStage env put ls record "PROJECTION" w).downstream = applyWrites [] (stageWrites ls') := by
  cases he : (runLines "PROJECTION" record ls [] false ⟨w, []⟩).early with
  | some o =>
    simp only [runStage, he] at ho
    have := runLines_rejects _ _ _ _ _ _ _ he
    rw [ho] at this
    cases this
  | none =>
    obtain ⟨h1, h2, h3⟩ := runLines_writes record ls [] ⟨w, []⟩ hns he
    simp only [runStage, he, finishPass, h1, if_true, Bool.false_eq_true, if_false] at ho ⊢
    cases hm : env.jsonMarshal (runLines "PROJECTION" record ls [] false ⟨w, []⟩).downstream with
    | error e => rw [hm] at ho; cases ho
    | ok bytes =>
      rw [hm] at ho
      cases ho
      exact ⟨_, bytes, rfl, h2, rfl, rfl, h3⟩

/-- C2, as the code has it: for a PROJECTION stage with no step whose plugin is named
SENDALL, when `runProjection` returns `passed = true` without error, the output bytes are
the JSON encoding of the map `downstream`, the steps of the stage keep their IDs, and
the map is the one the writes of the evaluated steps produce: its key set is the set of
IDs of the steps other than the cross-step OPERATOR steps (literal OPERATOR, not first
in their line), and the value at each key is the result of the last such step, in
projection order, that carries the ID. -/
theorem projection_document {W : Type} (env : Env) (r : Rulebase W) (record : String)
    (w : W) (ls : List (Base W)) (out : Option Bytes)
    (hp : r.Projection = some ls)
    (hns : ∀ l ∈ ls, ∀ s ∈ l, isSendAll s = false)
    (ho : (runProjection env r record "PROJECTION" w).outcome = .ret true out none) :
    ∃ ls' bytes, (runProjection env r record "PROJECTION" w).rulebase.Projection = some ls' ∧
      ls'.map (fun l => l.map (·.ID)) = ls.map (fun l => l.map (·.ID)) ∧
      out = some bytes ∧
      env.jsonMarshal (runProjection env r record "PROJECTION" w).downstream = .ok bytes ∧
      (∀ k, (runProjection env r record "PROJECTION" w).downstream.get k =
        lastWrite (stageWrites ls') k) ∧
      (∀ k, ((runProjection env r record "PROJECTION" w).downstream.get k).isSome = true ↔
        ∃ v, (k, v) ∈ stageWrites ls') := by
  unfold runProjection at ho ⊢
  simp only [String.reduceEq, if_false, if_true, hp] at ho ⊢
  obtain ⟨ls', bytes, h1, h2, h3, h4, h5⟩ := runStage_document env _ ls record w out hns ho
  have hg : ∀ k, (applyWrites [] (stageWrites ls')).get k = lastWrite (stageWrites ls') k := by
    intro k
    rw [get_applyWrites]
    cases lastWrite (stageWrites ls') k <;> rfl
  refine ⟨ls', bytes, by rw [h1], h2, h3, h4, ?_, ?_⟩
  · intro k; rw [h5]; exact hg k
  · intro k; rw [h5, hg k]; exact lastWrite_isSome _ _

theorem projection_document_witness :
    (runProjection (plainEnv false) twoFieldRule "rec" "PROJECTION" ()).outcome =
      .ret true (some "\x7b\"a\":\"x\",\"b\":3\x7d") none ∧
    ∃ ls' bytes,
      (runProjection (plainEnv false) twoFieldRule "rec" "PROJECTION" ()).rulebase.Projection
        = some ls' ∧
      ls'.map (fun l => l.map (·.ID)) = [[some "a"], [some "b"]] ∧
      some "\x7b\"a\":\"x\",\"b\":3\x7d" = some bytes ∧
      (plainEnv false).jsonMarshal
        (runProjection (plainEnv false) twoFieldRule "rec" "PROJECTION" ()).downstream
          = .ok bytes ∧
      (∀ k, (runProjection (plainEnv false) twoFieldRule "rec" "PROJECTION" ()).downstream.get k
        = lastWrite (stageWrites ls') k) ∧
      (∀ k, ((runProjection (plainEnv false) twoFieldRule "rec" "PROJECTION"
          ()).downstream.get k).isSome = true ↔ ∃ v, (k, v) ∈ stageWrites ls') :=
  ⟨by decide,
   projection_document (plainEnv false) twoFieldRule "rec" ()
      [[plainStep "a" (constPlugin "GET" (.str "x")) "v"],
       [plainStep "b" (constPlugin "NUM" (.int 3)) "w"]]
      (some "\x7b\"a\":\"x\",\"b\":3\x7d") rfl (by decide) (by decide)⟩

/-- C2 as stated fails: the cross-step OPERATOR step `o` of `operatorStepRule` is a step
of the stage, no plugin is named SENDALL, the pass completes, and the output document
is `{"a":"x"}`: the ID `o` is no key of it. -/
theorem operator_step_not_in_document_counterexample :
    operatorStepRule.Projection =
      some [[plainStep "a" (constPlugin "GET" (.str "x")) "v",
        operatorStep (constPlugin "EQ" (.bool true))]] ∧
    (operatorStep (constPlugin "EQ" (.bool true))).ID = some "o" ∧
    (runProjection (plainEnv false) operatorStepRule "rec" "PROJECTION" ()).outcome =
      .ret true (some "\x7b\"a\":\"x\"\x7d") none ∧
    (runProjection (plainEnv false) operatorStepRule "rec" "PROJECTION" ()).downstream =
      [("a", .str "x")] ∧
    (runProjection (plainEnv false) operatorStepRule "rec" "PROJECTION" ()).downstream.get "o"
      = none :=
  ⟨rfl, rfl, by decide, by decide, by decide⟩

/-! ## Positions in a stage -/

theorem runProjection_eq_runStage {W : Type} (env : Env) (r : Rulebase W)
    (record rp : String) (w : W) (ls : List (Base W)) (hs : stageOf r rp = some ls) :
    runProjection env r record rp w = runStage env (putStage r rp) ls record rp w := by
  by_cases h1 : rp = "CACHE"
  · subst h1
    have hs' : r.Cache = some ls := by simpa [stageOf] using hs
    simp only [runProjection, hs', if_true]
    rfl
  · by_cases h2 : rp = "PROJECTION"
    · subst h2
      have hs' : r.Projection = some ls := by simpa [stageOf] using hs
      simp only [runProjection, hs', String.reduceEq, if_false, if_true]
      rfl
    · by_cases h3 : rp = "PREDICATE"
      · subst h3
        have hs' : r.Predicate = some ls := by simpa [stageOf] using hs
        simp only [runProjection, hs', String.reduceEq, if_false, if_true]
        rfl
      · simp [stageOf, h1, h2, h3] at hs

theorem stageOf_putStage {W : Type} (r : Rulebase W) (rp : String) (ls ls' : List (Base W))
    (hs : stageOf r rp = some ls) : stageOf (putStage r rp ls') rp = some ls' := by
  unfold stageOf at hs ⊢
  unfold putStage
  by_cases h1 : rp = "CACHE"
  · simp [h1]
  · by_cases h2 : rp = "PROJECTION"
    · simp [h2]
    · by_cases h3 : rp = "PREDICATE"
      · simp [h3]
      · simp [h1, h2, h3] at hs

theorem runStage_rulebase {W : Type} (env : Env) (put : List (Base W) → Rulebase W)
    (ls : List (Base W)) (record rp : String) (w : W) :
    (runStage env put ls record rp w).rulebase =
      put (runLines rp record ls [] false ⟨w, []⟩).lines := by
  unfold runStage
  dsimp only
  split <;> rfl

theorem runLine_cons {W : Type} (rp record : String) (done : List (Step W)) (step : Step W)
    (rest : List (Step W)) (ds : Downstream) (a : Acc W) :
    runLine rp record done (step :: rest) ds a =
      match (evalStep rp record done.head? done.getLast? step a).exit with
      | .returned o =>
        ⟨.returned o, done ++ (evalStep rp record done.head? done.getLast? step a).node :: rest,
          ds, (evalStep rp record done.head? done.getLast? step a).acc⟩
      | .skipped =>
        runLine rp record (done ++ [(evalStep rp record done.head? done.getLast? step a).node])
          rest ds (evalStep rp record done.head? done.getLast? step a).acc
      | .replaced res =>
        if rp = "PROJECTION" then
          if isSendAll step then
            ⟨.sendAll, done ++ (evalStep rp record done.head? done.getLast? step a).node :: rest,
              ds, (evalStep rp record done.head? done.getLast? step a).acc⟩
          else
            match step.ID with
            | none =>
              ⟨.returned .panic,
                done ++ (evalStep rp record done.head? done.getLast? step a).node :: rest, ds,
                (evalStep rp record done.head? done.getLast? step a).acc⟩
            | some id =>
              runLine rp record
                (done ++ [(evalStep rp record done.head? done.getLast? step a).node]) rest
                (ds.set id res) (evalStep rp record done.head? done.getLast? step a).acc
        else
          runLine rp record (done ++ [(evalStep rp record done.head? done.getLast? step a).node])
            rest ds (evalStep rp record done.head? done.getLast? step a).acc := by
  rw [runLine]

theorem runLine_append {W : Type} (rp record : String) :
    ∀ (S1 T done : List (Step W)) (ds : Downstream) (a : Acc W),
      runLine rp record done (S1 ++ T) ds a =
        match (runLine rp record done S1 ds a).exit with
        | .finished =>
          runLine rp record (runLine rp record done S1 ds a).line T
            (runLine rp record done S1 ds a).downstream (runLine rp record done S1 ds a).acc
        | e => ⟨e, (runLine rp record done S1 ds a).line ++ T,
            (runLine rp record done S1 ds a).downstream, (runLine rp record done S1 ds a).acc⟩ := by
  intro S1
  induction S1 with
  | nil => intro T done ds a; simp [runLine]
  | cons s S1 ih =>
    intro T done ds a
    simp only [List.cons_append, runLine_cons]
    cases (evalStep rp record done.head? done.getLast? s a).exit with
    | returned o => simp
    | skipped => exact ih _ _ _ _
    | replaced res =>
      dsimp only
      split_ifs
      · simp
      · cases s.ID with
        | none => simp
        | some id => exact ih _ _ _ _
      · exact ih _ _ _ _

theorem runLines_cons {W : Type} (rp record : String) (l : Base W) (ls : List (Base W))
    (ds : Downstream) (flag : Bool) (a : Acc W) :
    runLines rp record (l :: ls) ds flag a =
      match (runLine rp record [] l ds a).exit with
      | .returned o =>
        ⟨some o, (runLine rp record [] l ds a).line :: ls, (runLine rp record [] l ds a).downstream,
          flag, (runLine rp record [] l ds a).acc⟩
      | .finished =>
        ⟨(runLines rp record ls (runLine rp record [] l ds a).downstream flag
            (runLine rp record [] l ds a).acc).early,
          (runLine rp record [] l ds a).line ::
            (runLines rp record ls (runLine rp record [] l ds a).downstream flag
              (runLine rp record [] l ds a).acc).lines,
          (runLines rp record ls (runLine rp record [] l ds a).downstream flag
            (runLine rp record [] l ds a).acc).downstream,
          (runLines rp record ls (runLine rp record [] l ds a).downstream flag
            (runLine rp record [] l ds a).acc).sendAllFlag,
          (runLines rp record ls (runLine rp record [] l ds a).downstream flag
            (runLine rp record [] l ds a).acc).acc⟩
      | .sendAll =>
        ⟨(runLines rp record ls (runLine rp record [] l ds a).downstream true
            (runLine rp record [] l ds a).acc).early,
          (runLine rp record [] l ds a).line ::
            (runLines rp record ls (runLine rp record [] l ds a).downstream true
              (runLine rp record [] l ds a).acc).lines,
          (runLines rp record ls (runLine rp record [] l ds a).downstream true
            (runLine rp record [] l ds a).acc).downstream,
          (runLines rp record ls (runLine rp record [] l ds a).downstream true
            (runLine rp record [] l ds a).acc).sendAllFlag,
          (runLines rp record ls (runLine rp record [] l ds a).downstream true
            (runLine rp record [] l ds a).acc).acc⟩ := by
  rw [runLines]

theorem runLines_append {W : Type} (rp record : String) :
    ∀ (L1 L2 : List (Base W)) (ds : Downstream) (flag : Bool) (a : Acc W),
      runLines rp record (L1 ++ L2) ds flag a =
        match (runLines rp record L1 ds flag a).early with
        | some o =>
          ⟨some o, (runLines rp record L1 ds flag a).lines ++ L2,
            (runLines rp record L1 ds flag a).downstream,
            (runLines rp record L1 ds flag a).sendAllFlag, (runLines rp record L1 ds flag a).acc⟩
        | none =>
          ⟨(runLines rp record L2 (runLines rp record L1 ds flag a).downstream
              (runLines rp record L1 ds flag a).sendAllFlag
              (runLines rp record L1 ds flag a).acc).early,
            (runLines rp record L1 ds flag a).lines ++
              (runLines rp record L2 (runLines rp record L1 ds flag a).downstream
                (runLines rp record L1 ds flag a).sendAllFlag
                (runLines rp record L1 ds flag a).acc).lines,
            (runLines rp record L2 (runLines rp record L1 ds flag a).downstream
              (runLines rp record L1 ds flag a).sendAllFlag
              (runLines rp record L1 ds flag a).acc).downstream,
            (runLines rp record L2 (runLines rp record L1 ds flag a).downstream
              (runLines rp record L1 ds flag a).sendAllFlag
              (runLines rp record L1 ds flag a).acc).sendAllFlag,
            (runLines rp record L2 (runLines rp record L1 ds flag a).downstream
              (runLines rp record L1 ds flag a).sendAllFlag
              (runLines rp record L1 ds flag a).acc).acc⟩ := by
  intro L1
  induction L1 with
  | nil => intro L2 ds flag a; simp [runLines]
  | cons l L1 ih =>
    intro L2 ds flag a
    simp only [List.cons_append, runLines_cons]
    cases (runLine rp record [] l ds a).exit with
    | returned o => simp
    | finished =>
      dsimp only
      rw [ih]
      split <;> simp_all
    | sendAll =>
      dsimp only
      rw [ih]
      split <;> simp_all

theorem runLine_length {W : Type} (rp record : String) :
    ∀ (todo done : List (Step W)) (ds : Downstream) (a : Acc W),
      (runLine rp record done todo ds a).line.length = done.length + todo.length := by
  intro todo
  induction todo with
  | nil => intro done ds a; simp [runLine]
  | cons s rest ih =>
    intro done ds a
    rw [runLine_cons]
    repeat' split
    all_goals first
      | (rw [ih]; simp; omega)
      | simp

theorem runLines_length {W : Type} (rp record : String) :
    ∀ (ls : List (Base W)) (ds : Downstream) (flag : Bool) (a : Acc W),
      (runLines rp record ls ds flag a).lines.length = ls.length := by
  intro ls
  induction ls with
  | nil => intro ds flag a; simp [runLines]
  | cons l ls ih =>
    intro ds flag a
    rw [runLines_cons]
    repeat' split
    all_goals simp [ih]

theorem runLine_prefix {W : Type} (rp record : String) :
    ∀ (todo done : List (Step W)) (ds : Downstream) (a : Acc W),
      ∃ nodes, (runLine rp record done todo ds a).line = done ++ nodes := by
  intro todo
  induction todo with
  | nil => intro done ds a; exact ⟨[], by simp [runLine]⟩
  | cons s rest ih =>
    intro done ds a
    rw [runLine_cons]
    repeat' split
    all_goals first
      | exact ⟨_, rfl⟩
      | (obtain ⟨nodes, h⟩ := ih (done ++ [(evalStep rp record done.head? done.getLast? s a).node])
            _ _
         exact ⟨(evalStep rp record done.head? done.getLast? s a).node :: nodes,
           by rw [h]; simp⟩)

theorem runLine_cons_line {W : Type} (rp record : String) (done : List (Step W)) (s : Step W)
    (rest : List (Step W)) (ds : Downstream) (a : Acc W) :
    ∃ tail, (runLine rp record done (s :: rest) ds a).line =
      done ++ (evalStep rp record done.head? done.getLast? s a).node :: tail := by
  rw [runLine_cons]
  repeat' split
  all_goals first
    | exact ⟨_, rfl⟩
    | (obtain ⟨nodes, h⟩ := runLine_prefix rp record rest
          (done ++ [(evalStep rp record done.head? done.getLast? s a).node]) _ _
       exact ⟨nodes, by rw [h]; simp⟩)

theorem getElem_append_cons_length {α : Type} (A B : List α) (x : α) (n : Nat)
    (h : A.length = n) : (A ++ x :: B)[n]? = some x := by
  subst h
  rw [List.getElem?_append_right (le_refl _)]
  simp

theorem runLines_reach {W : Type} (rp record : String) (L1 : List (Base W))
    (S1 : List (Step W)) (s : Step W) (S2 : List (Step W)) (L2 : List (Base W)) (w : W)
    (hr : Reaches rp record L1 S1 w) :
    (∃ tail tailLines,
      (runLines rp record (L1 ++ (S1 ++ s :: S2) :: L2) [] false ⟨w, []⟩).lines =
        (linesBefore rp record L1 w).lines ++
          ((stepsBefore rp record L1 S1 w).line ++ (bodyAt rp record L1 S1 s w).node :: tail)
            :: tailLines) ∧
    (∀ o, (bodyAt rp record L1 S1 s w).exit = .returned o →
      (runLines rp record (L1 ++ (S1 ++ s :: S2) :: L2) [] false ⟨w, []⟩).early = some o ∧
      (runLines rp record (L1 ++ (S1 ++ s :: S2) :: L2) [] false ⟨w, []⟩).lines =
        (linesBefore rp record L1 w).lines ++
          ((stepsBefore rp record L1 S1 w).line ++ (bodyAt rp record L1 S1 s w).node :: S2)
            :: L2 ∧
      (runLines rp record (L1 ++ (S1 ++ s :: S2) :: L2) [] false ⟨w, []⟩).acc =
        (bodyAt rp record L1 S1 s w).acc) := by
  obtain ⟨h1, h2⟩ := hr
  unfold linesBefore at h1
  unfold stepsBefore linesBefore at h2
  have hline : runLine rp record [] (S1 ++ s :: S2)
      (runLines rp record L1 [] false ⟨w, []⟩).downstream
      (runLines rp record L1 [] false ⟨w, []⟩).acc =
      runLine rp record (stepsBefore rp record L1 S1 w).line (s :: S2)
        (stepsBefore rp record L1 S1 w).downstream (stepsBefore rp record L1 S1 w).acc := by
    rw [runLine_append]
    simp only [h2]
    rfl
  constructor
  · obtain ⟨tail, ht⟩ := runLine_cons_line rp record (stepsBefore rp record L1 S1 w).line s S2
      (stepsBefore rp record L1 S1 w).downstream (stepsBefore rp record L1 S1 w).acc
    rw [runLines_append]
    simp only [h1]
    rw [runLines_cons, hline]
    repeat' split
    all_goals exact ⟨tail, _, by simp only [ht]; rfl⟩
  · intro o ho
    have hR : runLine rp record (stepsBefore rp record L1 S1 w).line (s :: S2)
        (stepsBefore rp record L1 S1 w).downstream (stepsBefore rp record L1 S1 w).acc =
        ⟨.returned o,
          (stepsBefore rp record L1 S1 w).line ++ (bodyAt rp record L1 S1 s w).node :: S2,
          (stepsBefore rp record L1 S1 w).downstream, (bodyAt rp record L1 S1 s w).acc⟩ := by
      rw [runLine_cons]
      unfold bodyAt at ho
      simp only [ho]
      rfl
    rw [runLines_append]
    simp only [h1]
    rw [runLines_cons, hline, hR]
    exact ⟨rfl, rfl, rfl⟩

theorem nodeAt_reach {W : Type} (rp record : String) (L1 : List (Base W))
    (S1 : List (Step W)) (s : Step W) (S2 : List (Step W)) (L2 : List (Base W)) (w : W)
    (hr : Reaches rp record L1 S1 w) :
    nodeAt (runLines rp record (L1 ++ (S1 ++ s :: S2) :: L2) [] false ⟨w, []⟩).lines
      L1.length S1.length = some (bodyAt rp record L1 S1 s w).node := by
  obtain ⟨tail, tailLines, h⟩ := (runLines_reach rp record L1 S1 s S2 L2 w hr).1
  rw [h]
  unfold nodeAt
  rw [getElem_append_cons_length _ _ _ _ (by unfold linesBefore; exact runLines_length _ _ _ _ _ _)]
  simp only [Option.some_bind]
  exact getElem_append_cons_length _ _ _ _ (by
    unfold stepsBefore
    rw [runLine_length]
    simp)

/-! ## The remaining paths of `runProjection` and `RunRule` -/

/-- C13: when the Cache stage of the rule base is nil, `runProjection(record, "CACHE")`
returns `(true, nil, nil)`, invokes no plugin (empty call log, world unchanged) and leaves
the rule base as it was. -/
theorem cache_absent_passes {W : Type} (env : Env) (r : Rulebase W) (record : String) (w : W)
    (h : r.Cache = none) :
    runProjection env r record "CACHE" w = ⟨.ret true none none, r, w, [], [], false⟩ := by
  simp [runProjection, h]

theorem cache_absent_passes_witness :
    (passThroughRule true).Cache = none ∧
    runProjection (plainEnv true) (passThroughRule true) "rec" "CACHE" () =
      ⟨.ret true none none, passThroughRule true, (), [], [], false⟩ :=
  ⟨rfl, cache_absent_passes (plainEnv true) (passThroughRule true) "rec" () rfl⟩

/-- C15: on the projection `[[SENDALL step], [step b]]` the pass goes on after the SENDALL
step: the plugin of `b`, a step of the next line, is invoked and the Result of `b` is
replaced, where the claim has no further step evaluated. -/
theorem sendAll_later_line_evaluated :
    (runProjection (plainEnv true) sendAllThenFieldRule "rec" "PROJECTION" ()).outcome =
      .ret true (some "rec") none ∧
    (runProjection (plainEnv true) sendAllThenFieldRule "rec" "PROJECTION" ()).calls =
      [⟨.normal, "SENDALL", [.str "x", .str "rec"], .nil, none⟩,
       ⟨.normal, "NUM", [.str "w", .str "rec"], .int 3, none⟩] ∧
    ((stageOf sendAllThenFieldRule "PROJECTION").bind (fun ls => nodeAt ls 1 0)).map
      (fun s => s.Result) = some .nil ∧
    ((stageOf (runProjection (plainEnv true) sendAllThenFieldRule "rec" "PROJECTION" ()).rulebase
      "PROJECTION").bind (fun ls => nodeAt ls 1 0)).map (fun s => s.Result) =
        some (.int 3) := by
  refine ⟨by decide, by decide, by decide, by decide⟩

/-- C18: on the cache line `[store step k, step s]` where the plugin of `s` answers `"x"`
together with an error, the cache-store write `STORE("s", "x")` is issued before the pass
returns the error, where the claim has the pass abort before the write. -/
theorem cache_write_precedes_error_check :
    (runProjection (plainEnv true) (cacheFailRule (.str "x")) "rec" "CACHE" ()).outcome =
      .ret false none (some "something bad happened") ∧
    (runProjection (plainEnv true) (cacheFailRule (.str "x")) "rec" "CACHE" ()).calls =
      [⟨.normal, "STORE", [.str "key", .str "rec"], .nil, none⟩,
       ⟨.normal, "LOOKUP", [.str "v", .str "rec"], .str "x", some "failed"⟩,
       ⟨.cacheWrite, "STORE", [.str "s", .str "x"], .nil, none⟩] := by
  refine ⟨by decide, by decide⟩

theorem cacheWrite_issued {W : Type} (f : Step W) (fp : Plugin W) (step : Step W)
    (id : String) (res : Val) (a : Acc W) (hf : f.Plugin = some fp) (hid : step.ID = some id)
    (hres : res ≠ .nil) :
    cacheWrite "CACHE" (some f) step res a =
      some (invoke .cacheWrite fp [.str id, .str res.format] a).2 := by
  unfold cacheWrite
  simp only [if_true, hf, hid]
  cases res with
  | nil => exact absurd rfl hres
  | str s => rfl
  | bool b => rfl
  | int n => rfl

theorem cacheWrite_absent {W : Type} (rp : String) (front : Option (Step W)) (step : Step W)
    (res : Val) (a : Acc W) (h : rp ≠ "CACHE" ∨ front = none) :
    cacheWrite rp front step res a = some a := by
  unfold cacheWrite
  rcases h with h | h
  · simp [h]
  · subst h
    split <;> rfl

/-- C17: on the cache line `[store step k, step s]` where the plugin of `s` answers nil
without an error, the pass panics in the cache-store write and the store plugin is not
invoked for `s`, where the claim has it invoked once with `("s", "<nil>")`; with the
answer `3` the write `STORE("s", "3")` is issued and the pass returns `(true, nil, nil)`. -/
theorem cache_write_nil_result_panics :
    (runProjection (plainEnv true) (cacheLineRule .nil) "rec" "CACHE" ()).outcome = .panic ∧
    (runProjection (plainEnv true) (cacheLineRule .nil) "rec" "CACHE" ()).calls =
      [⟨.normal, "STORE", [.str "key", .str "rec"], .nil, none⟩,
       ⟨.normal, "LOOKUP", [.str "v", .str "rec"], .nil, none⟩] ∧
    (runProjection (plainEnv true) (cacheLineRule (.int 3)) "rec" "CACHE" ()).outcome =
      .ret true none none ∧
    (runProjection (plainEnv true) (cacheLineRule (.int 3)) "rec" "CACHE" ()).calls =
      [⟨.normal, "STORE", [.str "key", .str "rec"], .nil, none⟩,
       ⟨.normal, "LOOKUP", [.str "v", .str "rec"], .int 3, none⟩,
       ⟨.cacheWrite, "STORE", [.str "s", .str "3"], .nil, none⟩] := by
  refine ⟨by decide, by decide, by decide, by decide⟩

/-- C19: when the first publish attempt succeeds, the gauge `rule_execution_time` is the
last event of `RunRule` and its `retry_count` is the string of the character with code
point 0, not the numeral `"0"`; likewise for the counts 2 and 3. -/
theorem retry_count_is_code_point :
    (RunRule (plainEnv true) (succeedsAt 1) (passThroughRule false) "rec" ()).events =
      [.stage "PREDICATE", .stage "CACHE", .stage "PROJECTION", .counter "rule_count",
       .publish "rec", .gauge "rule_execution_time" (String.singleton (Char.ofNat 0))] ∧
    retryCountString 0 ≠ "0" ∧ retryCountString 2 ≠ "2" ∧ retryCountString 3 ≠ "3" := by
  refine ⟨by decide, by decide, by decide, by decide⟩

/-- C20: on the predicate line `[extractor step, GetPrev step with an OPERATOR child]` the
record with `active = "false"` is rejected on a fresh tree and passes on the tree that an
earlier pass over the record with `active = "true"` has left. -/
theorem gate_depends_on_earlier_record :
    (runProjection (plainEnv true)
      (activeRule activeExtractor equalPlugin (constPlugin "NOOP" .nil) .nil .nil)
      recordTrue "PREDICATE" ()).outcome = .ret true none none ∧
    (runProjection (plainEnv true)
      (runProjection (plainEnv true)
        (activeRule activeExtractor equalPlugin (constPlugin "NOOP" .nil) .nil .nil)
        recordTrue "PREDICATE" ()).rulebase
      recordFalse "PREDICATE" ()).outcome = .ret true none none ∧
    (runProjection (plainEnv true)
      (activeRule activeExtractor equalPlugin (constPlugin "NOOP" .nil) .nil .nil)
      recordFalse "PREDICATE" ()).outcome = .ret false none none := by
  refine ⟨by decide, by decide, by decide⟩

/-! ## The node a step leaves -/

theorem finishStep_kept {W : Type} (rp : String) (front : Option (Step W)) (step : Step W)
    (res : Val) (err : Option String) (a : Acc W) :
    Kept step (finishStep rp front step res err a) := by
  unfold finishStep
  repeat' split
  all_goals simp [Kept]

theorem evalArgs_kept {W : Type} (rp record : String) (front prev : Option (Step W))
    (step : Step W) (allVals : List Val) (a : Acc W) :
    Kept step (evalArgs rp record front prev step allVals a) := by
  unfold evalArgs
  dsimp only
  repeat' split
  all_goals first
    | exact finishStep_kept _ _ _ _ _ _
    | simp [Kept]

theorem evalMulti_kept {W : Type} (rp record : String) (front prev : Option (Step W))
    (step : Step W) (allVals : List Val) (a : Acc W) :
    Kept step (evalMulti rp record front prev step allVals a) := by
  unfold evalMulti
  repeat' split
  all_goals first
    | exact evalArgs_kept _ _ _ _ _ _ _
    | simp [Kept]

theorem kept_replaced {W : Type} {step : Step W} {r : StepRes W} {res : Val}
    (hk : Kept step r) (h : r.exit = .replaced res) :
    r.node = ⟨step.ID, step.Plugin, step.Value, [], res, false⟩ := by
  unfold Kept at hk
  rw [h] at hk
  exact hk

theorem kept_other {W : Type} {step : Step W} {r : StepRes W}
    (hk : Kept step r) (h : ∀ res, r.exit ≠ .replaced res) : r.node = step := by
  unfold Kept at hk
  cases he : r.exit with
  | replaced res => exact absurd he (h res)
  | skipped => rw [he] at hk; exact hk
  | returned o => rw [he] at hk; exact hk

theorem evalStep_cases {W : Type} (rp record : String) (front prev : Option (Step W))
    (step : Step W) (a : Acc W) :
    (step.GetPrev = false ∧
      evalStep rp record front prev step a = evalMulti rp record front prev step [] a) ∨
    (step.GetPrev = true ∧ ∃ pv v, prev = some pv ∧ pv.Result = .str v ∧
      evalStep rp record front prev step a =
        evalMulti rp record front prev { step with Value := some v } [.str v] a) ∨
    (step.GetPrev = true ∧ ∃ o, evalStep rp record front prev step a = ⟨.returned o, step, a⟩) := by
  unfold evalStep
  cases hg : step.GetPrev with
  | false => exact Or.inl ⟨rfl, by simp⟩
  | true =>
    cases hp : step.Plugin with
    | none => exact Or.inr (Or.inr ⟨rfl, .panic, by simp⟩)
    | some p =>
      cases prev with
      | none =>
        exact Or.inr (Or.inr ⟨rfl, .ret false none (some "FRONTS PREVIOUS IMPOSSIBLE"), by simp⟩)
      | some pv =>
        cases hr : pv.Result with
        | str v => exact Or.inr (Or.inl ⟨rfl, pv, v, rfl, hr, by simp [hr]⟩)
        | nil => exact Or.inr (Or.inr ⟨rfl, .panic, by simp [hr]⟩)
        | bool b => exact Or.inr (Or.inr ⟨rfl, .panic, by simp [hr]⟩)
        | int n => exact Or.inr (Or.inr ⟨rfl, .panic, by simp [hr]⟩)

theorem evalStep_replaced {W : Type} (rp record : String) (front prev : Option (Step W))
    (step : Step W) (a : Acc W) (res : Val)
    (h : (evalStep rp record front prev step a).exit = .replaced res) :
    (evalStep rp record front prev step a).node =
      ⟨step.ID, step.Plugin, valueAt prev step, [], res, false⟩ := by
  rcases evalStep_cases rp record front prev step a with
    ⟨hg, he⟩ | ⟨hg, pv, v, hpv, hr, he⟩ | ⟨hg, o, he⟩
  · rw [he] at h ⊢
    rw [kept_replaced (evalMulti_kept _ _ _ _ _ _ _) h]
    simp [valueAt, hg]
  · rw [he] at h ⊢
    rw [kept_replaced (evalMulti_kept _ _ _ _ _ _ _) h]
    simp [valueAt, hg, hpv, hr]
  · rw [he] at h
    cases h

theorem evalStep_other {W : Type} (rp record : String) (front prev : Option (Step W))
    (step : Step W) (a : Acc W)
    (h : ∀ res, (evalStep rp record front prev step a).exit ≠ .replaced res) :
    (evalStep rp record front prev step a).node.ID = step.ID ∧
    (evalStep rp record front prev step a).node.Plugin = step.Plugin ∧
    (evalStep rp record front prev step a).node.MultiArgs = step.MultiArgs ∧
    (evalStep rp record front prev step a).node.Result = step.Result ∧
    (evalStep rp record front prev step a).node.GetPrev = step.GetPrev := by
  rcases evalStep_cases rp record front prev step a with
    ⟨hg, he⟩ | ⟨hg, pv, v, hpv, hr, he⟩ | ⟨hg, o, he⟩
  · rw [he] at h ⊢
    rw [kept_other (evalMulti_kept _ _ _ _ _ _ _) h]
    exact ⟨rfl, rfl, rfl, rfl, rfl⟩
  · rw [he] at h ⊢
    rw [kept_other (evalMulti_kept _ _ _ _ _ _ _) h]
    exact ⟨rfl, rfl, rfl, rfl, rfl⟩
  · rw [he]
    exact ⟨rfl, rfl, rfl, rfl, rfl⟩

theorem runStage_early {W : Type} (env : Env) (put : List (Base W) → Rulebase W)
    (ls : List (Base W)) (record rp : String) (w : W) (o : Outcome)
    (h : (runLines rp record ls [] false ⟨w, []⟩).early = some o) :
    (runStage env put ls record rp w).outcome = o := by
  unfold runStage
  simp only [h]

theorem pass_nodeAt {W : Type} (env : Env) (r : Rulebase W) (record rp : String) (w : W)
    (L1 : List (Base W)) (S1 : List (Step W)) (s : Step W) (S2 : List (Step W))
    (L2 : List (Base W)) (hs : stageOf r rp = some (L1 ++ (S1 ++ s :: S2) :: L2))
    (hr : Reaches rp record L1 S1 w) :
    (stageOf (runProjection env r record rp w).rulebase rp).bind
      (fun ls => nodeAt ls L1.length S1.length) = some (bodyAt rp record L1 S1 s w).node := by
  rw [runProjection_eq_runStage env r record rp w _ hs, runStage_rulebase,
    stageOf_putStage r rp _ _ hs]
  exact nodeAt_reach rp record L1 S1 s S2 L2 w hr

theorem pass_returned {W : Type} (env : Env) (r : Rulebase W) (record rp : String) (w : W)
    (L1 : List (Base W)) (S1 : List (Step W)) (s : Step W) (S2 : List (Step W))
    (L2 : List (Base W)) (hs : stageOf r rp = some (L1 ++ (S1 ++ s :: S2) :: L2))
    (hr : Reaches rp record L1 S1 w) (o : Outcome)
    (he : (bodyAt rp record L1 S1 s w).exit = .returned o) :
    (runProjection env r record rp w).outcome = o ∧
    stageOf (runProjection env r record rp w).rulebase rp =
      some ((linesBefore rp record L1 w).lines ++
        ((stepsBefore rp record L1 S1 w).line ++ (bodyAt rp record L1 S1 s w).node :: S2)
          :: L2) := by
  obtain ⟨h1, h2, _⟩ := (runLines_reach rp record L1 S1 s S2 L2 w hr).2 o he
  rw [runProjection_eq_runStage env r record rp w _ hs, runStage_rulebase,
    stageOf_putStage r rp _ _ hs, h2]
  exact ⟨runStage_early _ _ _ _ _ _ _ h1, rfl⟩

/-! ## Frame properties of a pass (C11, C12, C14) -/

/-- C11: a step that a pass reaches and leaves by a `return` (as when an operator answers
`false`) keeps its Result, and the steps after it in its line and all later lines are
left as they were; a step that a pass reaches and skips by `continue` (a cross-step
OPERATOR step whose operator answers `true`) keeps its Result. -/
theorem short_circuit_keeps_results {W : Type} (env : Env) (r : Rulebase W)
    (record rp : String) (w : W) (L1 : List (Base W)) (S1 : List (Step W)) (s : Step W)
    (S2 : List (Step W)) (L2 : List (Base W))
    (hs : stageOf r rp = some (L1 ++ (S1 ++ s :: S2) :: L2))
    (hr : Reaches rp record L1 S1 w) :
    (∀ o, (bodyAt rp record L1 S1 s w).exit = .returned o →
      ∃ L1' S1' s', stageOf (runProjection env r record rp w).rulebase rp =
          some (L1' ++ (S1' ++ s' :: S2) :: L2) ∧
        L1'.length = L1.length ∧ S1'.length = S1.length ∧ s'.Result = s.Result) ∧
    ((bodyAt rp record L1 S1 s w).exit = .skipped →
      ∃ s', (stageOf (runProjection env r record rp w).rulebase rp).bind
          (fun ls => nodeAt ls L1.length S1.length) = some s' ∧ s'.Result = s.Result) := by
  constructor
  · intro o he
    refine ⟨(linesBefore rp record L1 w).lines, (stepsBefore rp record L1 S1 w).line,
      (bodyAt rp record L1 S1 s w).node, (pass_returned env r record rp w L1 S1 s S2 L2 hs hr o he).2,
      ?_, ?_, ?_⟩
    · exact runLines_length _ _ _ _ _ _
    · unfold stepsBefore
      rw [runLine_length]
      simp
    · exact (evalStep_other _ _ _ _ _ _ (by
        intro res hres
        unfold bodyAt at he
        rw [he] at hres
        cases hres)).2.2.2.1
  · intro he
    refine ⟨_, pass_nodeAt env r record rp w L1 S1 s S2 L2 hs hr, ?_⟩
    exact (evalStep_other _ _ _ _ _ _ (by
      intro res hres
      unfold bodyAt at he
      rw [he] at hres
      cases hres)).2.2.2.1

theorem short_circuit_keeps_results_witness :
    Reaches "PREDICATE" "rec" [] [plainStep "a" (constPlugin "GET" (.str "x")) "v"] () ∧
    (bodyAt "PREDICATE" "rec" [] [plainStep "a" (constPlugin "GET" (.str "x")) "v"]
      (operatorStep (constPlugin "EQ" (.bool false))) ()).exit =
        .returned (.ret false none none) ∧
    (∃ L1' S1' s', stageOf (runProjection (plainEnv true) shortCircuitRule "rec" "PREDICATE"
          ()).rulebase "PREDICATE" =
        some (L1' ++ (S1' ++ s' ::
          [⟨some "c", some (constPlugin "NUM" (.int 3)), some "w", [], .str "old", false⟩]) ::
          [[⟨some "d", some (constPlugin "NUM" (.int 4)), some "w", [], .str "older",
            false⟩]]) ∧
        L1'.length = 0 ∧ S1'.length = 1 ∧ s'.Result = .nil) ∧
    Reaches "PROJECTION" "rec" [] [plainStep "a" (constPlugin "GET" (.str "x")) "v"] () ∧
    (bodyAt "PROJECTION" "rec" [] [plainStep "a" (constPlugin "GET" (.str "x")) "v"]
      (operatorStep (constPlugin "EQ" (.bool true))) ()).exit = .skipped ∧
    (∃ s', (stageOf (runProjection (plainEnv true) operatorStepRule "rec" "PROJECTION"
          ()).rulebase "PROJECTION").bind (fun ls => nodeAt ls 0 1) = some s' ∧
        s'.Result = .nil) :=
  ⟨by unfold Reaches; exact ⟨by decide, by decide⟩, by decide,
    (short_circuit_keeps_results (plainEnv true) shortCircuitRule "rec" "PREDICATE" () []
      [plainStep "a" (constPlugin "GET" (.str "x")) "v"]
      (operatorStep (constPlugin "EQ" (.bool false))) _ _ rfl
      (by unfold Reaches; exact ⟨by decide, by decide⟩)).1 (.ret false none none) (by decide),
    by unfold Reaches; exact ⟨by decide, by decide⟩, by decide,
    (short_circuit_keeps_results (plainEnv true) operatorStepRule "rec" "PROJECTION" () []
      [plainStep "a" (constPlugin "GET" (.str "x")) "v"]
      (operatorStep (constPlugin "EQ" (.bool true))) [] [] rfl
      (by unfold Reaches; exact ⟨by decide, by decide⟩)).2 (by decide)⟩

theorem reaches_front {W : Type} (rp record : String) (L1 : List (Base W)) (w : W)
    (h : (linesBefore rp record L1 w).early = none) : Reaches rp record L1 [] w :=
  ⟨h, rfl⟩

theorem evalStep_front_operator {W : Type} (rp record : String) (s : Step W) (a : Acc W)
    (hrp : rp = "PREDICATE" ∨ rp = "PROJECTION") (hv : s.Value = some "OPERATOR")
    (hg : s.GetPrev = false) (hm : s.MultiArgs = []) :
    evalStep rp record none none s a =
      ⟨.replaced .nil, ⟨s.ID, s.Plugin, s.Value, [], .nil, false⟩, a⟩ := by
  have hc : rp ≠ "CACHE" := by
    rcases hrp with h | h <;> subst h <;> decide
  unfold evalStep
  simp only [hg, Bool.false_eq_true, if_false]
  unfold evalMulti
  simp only [hm, hv, hc, ne_eq, not_false_eq_true, if_true]
  unfold evalArgs
  simp only [hv, hc, ne_eq, not_false_eq_true, and_self, if_true]
  unfold finishStep cacheWrite
  simp only [hc, if_false]
  rw [hv]

/-- C12: in a PREDICATE or PROJECTION stage, a first step of a line with the Value
OPERATOR, without GetPrev and without MultiArgs, is evaluated without a return or panic
and without any plugin call (log and world stay as they are); its node is replaced by a
node with the same ID, Plugin and Value whose Result is nil. -/
theorem front_operator_step_resets_result {W : Type} (env : Env) (r : Rulebase W)
    (record rp : String) (w : W) (L1 : List (Base W)) (s : Step W) (S2 : List (Step W))
    (L2 : List (Base W))
    (hrp : rp = "PREDICATE" ∨ rp = "PROJECTION")
    (hs : stageOf r rp = some (L1 ++ (s :: S2) :: L2))
    (hr : (linesBefore rp record L1 w).early = none)
    (hv : s.Value = some "OPERATOR") (hg : s.GetPrev = false) (hm : s.MultiArgs = []) :
    bodyAt rp record L1 [] s w =
      ⟨.replaced .nil, ⟨s.ID, s.Plugin, s.Value, [], .nil, false⟩,
        (linesBefore rp record L1 w).acc⟩ ∧
    (stageOf (runProjection env r record rp w).rulebase rp).bind
      (fun ls => nodeAt ls L1.length 0) = some ⟨s.ID, s.Plugin, s.Value, [], .nil, false⟩ := by
  have hb : bodyAt rp record L1 [] s w =
      ⟨.replaced .nil, ⟨s.ID, s.Plugin, s.Value, [], .nil, false⟩,
        (linesBefore rp record L1 w).acc⟩ := by
    show evalStep rp record none none s (linesBefore rp record L1 w).acc = _
    exact evalStep_front_operator rp record s _ hrp hv hg hm
  refine ⟨hb, ?_⟩
  have := pass_nodeAt env r record rp w L1 [] s S2 L2 hs (reaches_front rp record L1 w hr)
  rw [hb] at this
  exact this

theorem front_operator_step_resets_result_witness :
    (linesBefore "PREDICATE" "rec" ([] : List (Base Unit)) ()).early = none ∧
    bodyAt "PREDICATE" "rec" [] []
        (⟨some "o", some (constPlugin "EQ" (.bool true)), some "OPERATOR", [], .str "x", false⟩ :
          Step Unit) () =
      ⟨.replaced .nil,
        ⟨some "o", some (constPlugin "EQ" (.bool true)), some "OPERATOR", [], .nil, false⟩,
        (linesBefore "PREDICATE" "rec" [] ()).acc⟩ :=
  ⟨rfl, (front_operator_step_resets_result (plainEnv true) frontOperatorRule "rec" "PREDICATE"
    () [] _ [] [] (Or.inl rfl) rfl rfl rfl rfl rfl).1⟩

/-- C12, counterexample: the first step of the line is an OPERATOR step that holds the
result `"x"`; the pass returns `(true, nil, nil)` and makes no call, and the step holds
nil afterwards. -/
theorem front_operator_result_lost_counterexample :
    ((stageOf frontOperatorRule "PREDICATE").bind (fun ls => nodeAt ls 0 0)).map
      (fun s => s.Result) = some (.str "x") ∧
    (runProjection (plainEnv true) frontOperatorRule "rec" "PREDICATE" ()).outcome =
      .ret true none none ∧
    (runProjection (plainEnv true) frontOperatorRule "rec" "PREDICATE" ()).calls = [] ∧
    ((stageOf (runProjection (plainEnv true) frontOperatorRule "rec" "PREDICATE" ()).rulebase
      "PREDICATE").bind (fun ls => nodeAt ls 0 0)).map (fun s => s.Result) = some .nil := by
  refine ⟨by decide, by decide, by decide, by decide⟩

/-- C14: a step that a pass reaches and replaces leaves at its position a node with the
same ID and Plugin and with Result = res; the Value of the node is the Value of the step
when the step has no GetPrev, and the Result of the predecessor, a string, when it has. -/
theorem replaced_node_fields {W : Type} (env : Env) (r : Rulebase W)
    (record rp : String) (w : W) (L1 : List (Base W)) (S1 : List (Step W)) (s : Step W)
    (S2 : List (Step W)) (L2 : List (Base W)) (res : Val)
    (hs : stageOf r rp = some (L1 ++ (S1 ++ s :: S2) :: L2))
    (hr : Reaches rp record L1 S1 w)
    (he : (bodyAt rp record L1 S1 s w).exit = .replaced res) :
    ∃ n, (stageOf (runProjection env r record rp w).rulebase rp).bind
        (fun ls => nodeAt ls L1.length S1.length) = some n ∧
      n.ID = s.ID ∧ n.Plugin = s.Plugin ∧ n.Result = res ∧
      (s.GetPrev = false → n.Value = s.Value) ∧
      (s.GetPrev = true → ∃ pv v, (stepsBefore rp record L1 S1 w).line.getLast? = some pv ∧
        pv.Result = .str v ∧ n.Value = some v) := by
  refine ⟨_, pass_nodeAt env r record rp w L1 S1 s S2 L2 hs hr, ?_⟩
  have hn := evalStep_replaced rp record (stepsBefore rp record L1 S1 w).line.head?
    (stepsBefore rp record L1 S1 w).line.getLast? s (stepsBefore rp record L1 S1 w).acc res he
  unfold bodyAt
  rw [hn]
  refine ⟨rfl, rfl, rfl, ?_, ?_⟩
  · intro hg
    simp [valueAt, hg]
  · intro hg
    rcases evalStep_cases rp record (stepsBefore rp record L1 S1 w).line.head?
      (stepsBefore rp record L1 S1 w).line.getLast? s (stepsBefore rp record L1 S1 w).acc with
      ⟨hg', _⟩ | ⟨_, pv, v, hpv, hres, _⟩ | ⟨_, o, ho⟩
    · rw [hg] at hg'
      cases hg'
    · exact ⟨pv, v, hpv, hres, by simp [valueAt, hg, hpv, hres]⟩
    · unfold bodyAt at he
      rw [ho] at he
      cases he

theorem replaced_node_fields_witness :
    Reaches "PREDICATE" recordTrue []
      [(⟨some "a", some activeExtractor, some "active", [], .nil, false⟩ : Step Unit)] () ∧
    (bodyAt "PREDICATE" recordTrue []
      [(⟨some "a", some activeExtractor, some "active", [], .nil, false⟩ : Step Unit)]
      ⟨some "b", some (constPlugin "NOOP" .nil), none,
        [operatorChild equalPlugin (.str "true")], .nil, true⟩ ()).exit = .replaced .nil ∧
    ∃ n, (stageOf (runProjection (plainEnv true)
        (activeRule activeExtractor equalPlugin (constPlugin "NOOP" .nil) .nil .nil)
        recordTrue "PREDICATE" ()).rulebase "PREDICATE").bind
        (fun ls => nodeAt ls 0 1) = some n ∧
      n.ID = some "b" ∧ n.Result = .nil :=
  ⟨by unfold Reaches; exact ⟨by decide, by decide⟩, by decide,
    by
      obtain ⟨n, h1, h2, _, h4, _⟩ := replaced_node_fields (plainEnv true)
        (activeRule activeExtractor equalPlugin (constPlugin "NOOP" .nil) .nil .nil)
        recordTrue "PREDICATE" () []
        [⟨some "a", some activeExtractor, some "active", [], .nil, false⟩]
        ⟨some "b", some (constPlugin "NOOP" .nil), none,
          [operatorChild equalPlugin (.str "true")], .nil, true⟩ [] [] .nil rfl
        (by unfold Reaches; exact ⟨by decide, by decide⟩) (by decide)
      exact ⟨n, h1, h2, h4⟩⟩

/-- C14, counterexample: after the pass over the record with `active = "true"`, the node
of the GetPrev step `b` holds the Value `"true"`, no MultiArgs and no GetPrev, where
before the pass it held no Value, one MultiArgs child and GetPrev. -/
theorem replaced_node_changes_value_counterexample :
    ((stageOf (activeRule activeExtractor equalPlugin (constPlugin "NOOP" .nil) .nil .nil)
      "PREDICATE").bind (fun ls => nodeAt ls 0 1)).map
      (fun s => (s.Value, s.MultiArgs.length, s.GetPrev)) = some (none, 1, true) ∧
    ((stageOf (runProjection (plainEnv true)
      (activeRule activeExtractor equalPlugin (constPlugin "NOOP" .nil) .nil .nil)
      recordTrue "PREDICATE" ()).rulebase "PREDICATE").bind (fun ls => nodeAt ls 0 1)).map
      (fun s => (s.Value, s.MultiArgs.length, s.GetPrev)) = some (some "true", 0, false) := by
  refine ⟨by decide, by decide⟩

/-! ## The arguments of the normal evaluation (C16) -/

theorem childCalls_append (xs ys : List Call) :
    childCalls (xs ++ ys) = childCalls xs ++ childCalls ys := by
  simp [childCalls]

theorem childCalls_none (xs : List Call) (h : ∀ c ∈ xs, c.kind ≠ .child) :
    childCalls xs = [] := by
  simp only [childCalls, List.filter_eq_nil_iff, decide_eq_true_eq]
  exact h

theorem runMultiArgs_calls {W : Type} (record : String) (sv : Option String) :
    ∀ (ks : List (Step W)) (vals : List Val) (a : Acc W),
      ∃ added, (runMultiArgs record sv ks vals a).2.calls = a.calls ++ added ∧
        (∀ c ∈ added, c.kind ≠ .normal) ∧
        ∀ vals', (runMultiArgs record sv ks vals a).1 = .args vals' →
          List.Forall₂ (IsChildCall record)
            (ks.takeWhile (fun c => decide (c.Value ≠ some "OPERATOR"))) (childCalls added) ∧
          vals' = vals ++ (childCalls added).map (fun c => c.res) := by
  intro ks
  induction ks with
  | nil =>
    intro vals a
    refine ⟨[], by simp [runMultiArgs], by simp, ?_⟩
    intro vals' h
    simp only [runMultiArgs, ArgsExit.args.injEq] at h
    simp [childCalls, h]
  | cons k ks ih =>
    intro vals a
    unfold runMultiArgs
    cases hv : k.Value with
    | none => exact ⟨[], by simp, by simp, by simp⟩
    | some stepValue =>
      dsimp only
      by_cases hop : stepValue = "OPERATOR"
      · subst hop
        simp only [ne_eq, not_true_eq_false, if_false]
        cases hr : k.Result with
        | str stepRes =>
          dsimp only
          cases hp : k.Plugin with
          | none => exact ⟨[], by simp, by simp, by simp⟩
          | some p =>
            cases sv with
            | none => exact ⟨[], by simp, by simp, by simp⟩
            | some svv =>
              dsimp only
              refine ⟨[⟨.opChild, p.name, [.str svv, .str stepRes],
                (p.runnable [.str svv, .str stepRes] a.world).1.1,
                (p.runnable [.str svv, .str stepRes] a.world).1.2⟩], ?_, by simp, ?_⟩
              · split <;> simp
              · intro vals' h
                split at h
                · cases h
                · simp only [ArgsExit.args.injEq] at h
                  simp [childCalls, hv, h]
                · cases h
        | nil => exact ⟨[], by simp, by simp, by simp⟩
        | bool b => exact ⟨[], by simp, by simp, by simp⟩
        | int n => exact ⟨[], by simp, by simp, by simp⟩
      · simp only [ne_eq, hop, not_false_eq_true, if_true]
        cases hp : k.Plugin with
        | none => exact ⟨[], by simp, by simp, by simp⟩
        | some p =>
          dsimp only
          cases he : (invoke CallKind.child p [.str stepValue, .str record] a).1.2 with
          | some e =>
            refine ⟨[⟨.child, p.name, [.str stepValue, .str record],
                (p.runnable [.str stepValue, .str record] a.world).1.1,
                (p.runnable [.str stepValue, .str record] a.world).1.2⟩], by simp, by simp, ?_⟩
            intro vals' h
            cases h
          | none =>
            dsimp only
            obtain ⟨added, h1, h2, h3⟩ := ih
              (vals ++ [(invoke CallKind.child p [.str stepValue, .str record] a).1.1])
              (invoke CallKind.child p [.str stepValue, .str record] a).2
            refine ⟨⟨.child, p.name, [.str stepValue, .str record],
                (p.runnable [.str stepValue, .str record] a.world).1.1,
                (p.runnable [.str stepValue, .str record] a.world).1.2⟩ :: added, ?_, ?_, ?_⟩
            · rw [h1]
              simp
            · intro c hc
              rcases List.mem_cons.1 hc with h | h
              · rw [h]; simp
              · exact h2 c h
            · intro vals' h
              obtain ⟨h4, h5⟩ := h3 vals' h
              have ht : (k :: ks).takeWhile (fun c => decide (c.Value ≠ some "OPERATOR")) =
                  k :: ks.takeWhile (fun c => decide (c.Value ≠ some "OPERATOR")) := by
                simp [List.takeWhile_cons, hv, hop]
              rw [ht]
              refine ⟨?_, ?_⟩
              · simp only [childCalls, List.filter_cons_of_pos, decide_True]
                exact List.Forall₂.cons ⟨rfl, p, stepValue, hp, hv, rfl, rfl⟩ h4
              · rw [h5]
                simp [childCalls]

theorem cacheWrite_calls {W : Type} (rp : String) (front : Option (Step W)) (step : Step W)
    (res : Val) (a a' : Acc W) (hw : cacheWrite rp front step res a = some a') :
    ∃ added, a'.calls = a.calls ++ added ∧ ∀ c ∈ added, c.kind = .cacheWrite := by
  unfold cacheWrite at hw
  repeat' split at hw
  all_goals first
    | (cases Option.some.inj hw; exact ⟨_, invoke_calls _ _ _ _, by simp⟩)
    | (cases hw; exact ⟨[], (List.append_nil _).symm, fun _ h => nomatch h⟩)
    | cases hw

theorem finishStep_calls {W : Type} (rp : String) (front : Option (Step W)) (step : Step W)
    (res : Val) (err : Option String) (a : Acc W) :
    ∃ added, (finishStep rp front step res err a).acc.calls = a.calls ++ added ∧
      ∀ c ∈ added, c.kind = .cacheWrite := by
  unfold finishStep
  split
  · exact ⟨[], by simp, by simp⟩
  · rename_i a' hw
    split <;> exact cacheWrite_calls rp front step res a a' hw

theorem evalArgs_calls {W : Type} (rp record : String) (front prev : Option (Step W))
    (step : Step W) (vals : List Val) (a : Acc W) :
    ∃ added, (evalArgs rp record front prev step vals a).acc.calls = a.calls ++ added ∧
      (∀ c ∈ added, c.kind ≠ .child) ∧
      ∀ c ∈ added, c.kind = .normal →
        (∃ p, step.Plugin = some p ∧ c.plugin = p.name) ∧
        ∃ v, step.Value = some v ∧
          c.args = vals ++ (if rp ≠ "CACHE" then [.str record] else [.str v, .str record]) := by
  unfold evalArgs
  cases hv : step.Value with
  | none => exact ⟨[], by simp, by simp, by simp⟩
  | some v =>
    dsimp only
    split
    · cases prev with
      | none =>
        obtain ⟨added, h1, h2⟩ := finishStep_calls rp front step .nil none a
        refine ⟨added, h1, ?_, ?_⟩
        · intro c hc
          rw [h2 c hc]
          decide
        · intro c hc hn
          rw [h2 c hc] at hn
          cases hn
      | some pv =>
        dsimp only
        cases hp : step.Plugin with
        | none => exact ⟨[], by simp, by simp, by simp⟩
        | some p =>
          dsimp only
          refine ⟨[⟨.crossOp, p.name, [pv.Result, step.Result],
            (p.runnable [pv.Result, step.Result] a.world).1.1,
            (p.runnable [pv.Result, step.Result] a.world).1.2⟩], ?_, by simp, by simp⟩
          split <;> simp
    · cases hp : step.Plugin with
      | none =>
        obtain ⟨added, h1, h2⟩ := finishStep_calls rp front step .nil none a
        refine ⟨added, h1, ?_, ?_⟩
        · intro c hc
          rw [h2 c hc]
          decide
        · intro c hc hn
          rw [h2 c hc] at hn
          cases hn
      | some p =>
        dsimp only
        obtain ⟨added, h1, h2⟩ := finishStep_calls rp front step
          (invoke .normal p (if rp ≠ "CACHE" then vals ++ [.str record]
            else vals ++ [.str v, .str record]) a).1.1
          (invoke .normal p (if rp ≠ "CACHE" then vals ++ [.str record]
            else vals ++ [.str v, .str record]) a).1.2
          (invoke .normal p (if rp ≠ "CACHE" then vals ++ [.str record]
            else vals ++ [.str v, .str record]) a).2
        refine ⟨⟨.normal, p.name, (if rp ≠ "CACHE" then vals ++ [.str record]
            else vals ++ [.str v, .str record]),
          (p.runnable (if rp ≠ "CACHE" then vals ++ [.str record]
            else vals ++ [.str v, .str record]) a.world).1.1,
          (p.runnable (if rp ≠ "CACHE" then vals ++ [.str record]
            else vals ++ [.str v, .str record]) a.world).1.2⟩ :: added, ?_, ?_, ?_⟩
        · rw [h1, invoke_calls, List.append_assoc]
          rfl
        · intro c hc
          rcases List.mem_cons.1 hc with h | h
          · rw [h]; simp
          · rw [h2 c h]; decide
        · intro c hc hn
          rcases List.mem_cons.1 hc with h | h
          · rw [h]
            refine ⟨⟨p, rfl, rfl⟩, v, rfl, ?_⟩
            dsimp only
            split <;> rfl
          · rw [h2 c h] at hn
            cases hn

theorem evalMulti_calls {W : Type} (rp record : String) (front prev : Option (Step W))
    (step : Step W) (vals : List Val) (a : Acc W) :
    ∃ added, (evalMulti rp record front prev step vals a).acc.calls = a.calls ++ added ∧
      ∀ c ∈ added, c.kind = .normal →
        (∃ p, step.Plugin = some p ∧ c.plugin = p.name) ∧
        List.Forall₂ (IsChildCall record) (nonOperatorChildren step) (childCalls added) ∧
        ∃ v, step.Value = some v ∧
          c.args = vals ++
            (if step.MultiArgs.isEmpty then (if rp ≠ "CACHE" then [.str v] else [])
              else (childCalls added).map (fun c => c.res)) ++
            (if rp ≠ "CACHE" then [.str record] else [.str v, .str record]) := by
  unfold evalMulti
  cases hm : step.MultiArgs with
  | nil =>
    dsimp only
    have hn : nonOperatorChildren step = [] := by simp [nonOperatorChildren, hm]
    split
    · rename_i hc
      cases hv : step.Value with
      | none => exact ⟨[], by simp, by simp⟩
      | some v =>
        dsimp only
        obtain ⟨added, h1, h2, h3⟩ := evalArgs_calls rp record front prev step (vals ++ [.str v]) a
        refine ⟨added, h1, ?_⟩
        intro c hc' hk
        obtain ⟨h4, v', h5, h6⟩ := h3 c hc' hk
        rw [hv] at h5
        cases h5
        refine ⟨h4, ?_, v, rfl, ?_⟩
        · rw [hn, childCalls_none added h2]
          exact List.Forall₂.nil
        · rw [h6]
          simp [hc]
    · rename_i hc
      obtain ⟨added, h1, h2, h3⟩ := evalArgs_calls rp record front prev step vals a
      refine ⟨added, h1, ?_⟩
      intro c hc' hk
      obtain ⟨h4, v, h5, h6⟩ := h3 c hc' hk
      refine ⟨h4, ?_, v, h5, ?_⟩
      · rw [hn, childCalls_none added h2]
        exact List.Forall₂.nil
      · rw [h6]
        simp [hc]
  | cons k ks =>
    dsimp only
    obtain ⟨added1, h1, h2, h3⟩ := runMultiArgs_calls record step.Value (k :: ks) vals a
    cases hres : runMultiArgs record step.Value (k :: ks) vals a with
    | mk e a' =>
      rw [hres] at h1 h3
      cases e with
      | returned o =>
        refine ⟨added1, h1, ?_⟩
        intro c hc hk
        exact absurd hk (h2 c hc)
      | args vals' =>
        dsimp only
        obtain ⟨h4, h5⟩ := h3 vals' rfl
        obtain ⟨added2, g1, g2, g3⟩ := evalArgs_calls rp record front prev step vals' a'
        have hcc : childCalls (added1 ++ added2) = childCalls added1 := by
          rw [childCalls_append, childCalls_none added2 g2, List.append_nil]
        refine ⟨added1 ++ added2, ?_, ?_⟩
        · rw [g1]
          dsimp only at h1
          rw [h1, List.append_assoc]
        · intro c hc hk
          rcases List.mem_append.1 hc with h | h
          · exact absurd hk (h2 c h)
          · obtain ⟨g4, v, g5, g6⟩ := g3 c h hk
            refine ⟨g4, ?_, v, g5, ?_⟩
            · rw [hcc]
              unfold nonOperatorChildren
              rw [hm]
              exact h4
            · rw [g6, hcc, h5]
              simp

/-- C16: the argument list of every normal evaluation that the body of the step loop
makes for a step is `P ++ M ++ T` as the specification gives it, on the plugin of the
step, and the compute children invoked before it are the children before the first
OPERATOR child, in order, each with `(child.Value, record)`. -/
theorem normal_evaluation_arguments {W : Type} (rp record : String)
    (front prev : Option (Step W)) (step : Step W) (a : Acc W) :
    ∃ added, (evalStep rp record front prev step a).acc.calls = a.calls ++ added ∧
      ∀ c ∈ added, c.kind = .normal →
        (∃ p, step.Plugin = some p ∧ c.plugin = p.name) ∧
        List.Forall₂ (IsChildCall record) (nonOperatorChildren step) (childCalls added) ∧
        c.args = specArgs rp record prev step ((childCalls added).map (fun c => c.res)) := by
  rcases evalStep_cases rp record front prev step a with
    ⟨hg, he⟩ | ⟨hg, pv, v, hpv, hr, he⟩ | ⟨hg, o, he⟩
  · rw [he]
    obtain ⟨added, h1, h2⟩ := evalMulti_calls rp record front prev step [] a
    refine ⟨added, h1, ?_⟩
    intro c hc hk
    obtain ⟨h3, h4, v, h5, h6⟩ := h2 c hc hk
    refine ⟨h3, h4, ?_⟩
    rw [h6]
    simp [specArgs, valueAt, hg, h5]
  · rw [he]
    obtain ⟨added, h1, h2⟩ := evalMulti_calls rp record front prev
      { step with Value := some v } [.str v] a
    refine ⟨added, h1, ?_⟩
    intro c hc hk
    obtain ⟨h3, h4, v', h5, h6⟩ := h2 c hc hk
    cases h5
    refine ⟨h3, h4, ?_⟩
    rw [h6]
    simp [specArgs, valueAt, hg, hpv, hr]
  · rw [he]
    exact ⟨[], by simp, by simp⟩

theorem normal_evaluation_arguments_example :
    (evalStep "PREDICATE" "rec" (some (plainStep "a" (constPlugin "GET" (.str "p")) "v"))
      (some ⟨some "a", some (constPlugin "GET" (.str "p")), some "v", [], .str "p", false⟩)
      multiArgsStep ⟨(), []⟩).acc.calls =
      [⟨.child, "GET", [.str "f1", .str "rec"], .str "x", none⟩,
       ⟨.child, "NUM", [.str "f2", .str "rec"], .int 3, none⟩,
       ⟨.opChild, "EQ", [.str "p", .str "y"], .bool true, none⟩,
       ⟨.normal, "JOIN", [.str "p", .str "x", .int 3, .str "rec"], .str "j", none⟩] ∧
    specArgs "PREDICATE" "rec"
      (some ⟨some "a", some (constPlugin "GET" (.str "p")), some "v", [], .str "p", false⟩)
      multiArgsStep [.str "x", .int 3] = [.str "p", .str "x", .int 3, .str "rec"] := by
  refine ⟨by decide, by decide⟩

/-! ## What follows the replacement of a node -/

theorem runLine_front_operator {W : Type} (rp record : String) (s : Step W)
    (S2 : List (Step W)) (ds : Downstream) (a : Acc W)
    (hrp : rp = "PREDICATE" ∨ rp = "PROJECTION") (hv : s.Value = some "OPERATOR")
    (hg : s.GetPrev = false) (hm : s.MultiArgs = []) :
    runLine rp record [] (s :: S2) ds a =
      if rp = "PROJECTION" then
        if isSendAll s then
          ⟨.sendAll, ⟨s.ID, s.Plugin, s.Value, [], .nil, false⟩ :: S2, ds, a⟩
        else
          match s.ID with
          | none => ⟨.returned .panic, ⟨s.ID, s.Plugin, s.Value, [], .nil, false⟩ :: S2, ds, a⟩
          | some id =>
            runLine rp record [⟨s.ID, s.Plugin, s.Value, [], .nil, false⟩] S2 (ds.set id .nil) a
      else runLine rp record [⟨s.ID, s.Plugin, s.Value, [], .nil, false⟩] S2 ds a := by
  rw [runLine_cons]
  simp only [List.head?_nil, List.getLast?_nil,
    evalStep_front_operator rp record s a hrp hv hg hm, List.nil_append]

theorem sendAll_ends_line {W : Type} (record : String) (done : List (Step W)) (s : Step W)
    (rest : List (Step W)) (ds : Downstream) (a : Acc W) (res : Val)
    (he : (evalStep "PROJECTION" record done.head? done.getLast? s a).exit = .replaced res)
    (hs : isSendAll s = true) :
    runLine "PROJECTION" record done (s :: rest) ds a =
      ⟨.sendAll, done ++ (evalStep "PROJECTION" record done.head? done.getLast? s a).node :: rest,
        ds, (evalStep "PROJECTION" record done.head? done.getLast? s a).acc⟩ := by
  rw [runLine_cons]
  simp only [he, hs, if_true]

/-! ## A reached SENDALL step (C1) -/

theorem runLines_reach_sendAll {W : Type} (record : String) (L1 : List (Base W))
    (S1 : List (Step W)) (s : Step W) (S2 : List (Step W)) (L2 : List (Base W)) (w : W)
    (res : Val) (hr : Reaches "PROJECTION" record L1 S1 w) (hq : isSendAll s = true)
    (he : (bodyAt "PROJECTION" record L1 S1 s w).exit = .replaced res) :
    (runLines "PROJECTION" record (L1 ++ (S1 ++ s :: S2) :: L2) [] false ⟨w, []⟩).early =
      (linesAfterSendAll record L1 S1 s L2 w).early ∧
    (runLines "PROJECTION" record (L1 ++ (S1 ++ s :: S2) :: L2) [] false ⟨w, []⟩).sendAllFlag =
      (linesAfterSendAll record L1 S1 s L2 w).sendAllFlag := by
  obtain ⟨h1, h2⟩ := hr
  unfold linesBefore at h1
  unfold stepsBefore linesBefore at h2
  have hline : runLine "PROJECTION" record [] (S1 ++ s :: S2)
      (runLines "PROJECTION" record L1 [] false ⟨w, []⟩).downstream
      (runLines "PROJECTION" record L1 [] false ⟨w, []⟩).acc =
      ⟨.sendAll,
        (stepsBefore "PROJECTION" record L1 S1 w).line ++
          (bodyAt "PROJECTION" record L1 S1 s w).node :: S2,
        (stepsBefore "PROJECTION" record L1 S1 w).downstream,
        (bodyAt "PROJECTION" record L1 S1 s w).acc⟩ := by
    rw [runLine_append]
    simp only [h2]
    exact sendAll_ends_line record _ s S2 _ _ res he hq
  rw [runLines_append]
  simp only [h1]
  rw [runLines_cons, hline]
  exact ⟨rfl, rfl⟩

/-- C1: in a PROJECTION pass that reaches a step whose plugin is named SENDALL (no step
before it ends the pass) and replaces it (its evaluation returns no error), when no line
behind the line of that step ends the pass, `runProjection` returns `passed = true`, a
nil error and the bytes of the record payload, whatever the steps before it and the
lines behind it compute. -/
theorem sendAll_passes_record {W : Type} (env : Env) (r : Rulebase W) (record : String)
    (w : W) (L1 : List (Base W)) (S1 : List (Step W)) (s : Step W) (S2 : List (Step W))
    (L2 : List (Base W)) (res : Val)
    (hs : r.Projection = some (L1 ++ (S1 ++ s :: S2) :: L2))
    (hr : Reaches "PROJECTION" record L1 S1 w) (hq : isSendAll s = true)
    (he : (bodyAt "PROJECTION" record L1 S1 s w).exit = .replaced res)
    (hl : (linesAfterSendAll record L1 S1 s L2 w).early = none) :
    (runProjection env r record "PROJECTION" w).outcome = .ret true (some record) none := by
  obtain ⟨h1, h2⟩ := runLines_reach_sendAll record L1 S1 s S2 L2 w res hr hq he
  have hf : (linesAfterSendAll record L1 S1 s L2 w).sendAllFlag = true :=
    (runLines_adds record L2 _ true _ hl).1 rfl
  have hs' : stageOf r "PROJECTION" = some (L1 ++ (S1 ++ s :: S2) :: L2) := by
    simpa [stageOf] using hs
  rw [runProjection_eq_runStage env r record "PROJECTION" w _ hs']
  unfold runStage
  simp only [h1, hl, h2, hf, finishPass, if_true]

theorem linesAfterSendAll_nil {W : Type} (record : String) (L1 : List (Base W))
    (S1 : List (Step W)) (s : Step W) (w : W) :
    (linesAfterSendAll record L1 S1 s [] w).early = none := rfl

theorem sendAll_passes_record_witness :
    sendAllThenFieldRule.Projection =
      some ([] ++ ([] ++ sendAllStep :: []) :: [[plainStep "b" (constPlugin "NUM" (.int 3)) "w"]]) ∧
    Reaches "PROJECTION" "rec" ([] : List (Base Unit)) [] () ∧
    isSendAll sendAllStep = true ∧
    (bodyAt "PROJECTION" "rec" [] [] sendAllStep ()).exit = .replaced .nil ∧
    (linesAfterSendAll "rec" [] [] sendAllStep
      [[plainStep "b" (constPlugin "NUM" (.int 3)) "w"]] ()).early = none ∧
    (runProjection (plainEnv false) sendAllThenFieldRule "rec" "PROJECTION" ()).outcome =
      .ret true (some "rec") none :=
  ⟨rfl, ⟨rfl, rfl⟩, by decide, by decide, by decide,
    (sendAll_passes_record (plainEnv false) sendAllThenFieldRule "rec" () [] [] sendAllStep []
      [[plainStep "b" (constPlugin "NUM" (.int 3)) "w"]] .nil rfl ⟨rfl, rfl⟩ (by decide)
      (by decide) (by decide))⟩

/-! ## The publish phase without an error value (C8) and the test of line 155 (C9) -/

/-- C8: for the record that passes the three stages and the sink whose `Publish` fails
twice without an error value and succeeds on the third attempt, `RunRule` panics at
`err.Error()` (line 191) after one publish attempt and writes no acknowledgement, where
the claim has 3 attempts and one acknowledgement. -/
theorem publish_failure_without_error_panics :
    passesStages (plainEnv true) (passThroughRule true) "rec" () "rec" ∧
    silentFailSink 0 "rec" = (false, none) ∧ silentFailSink 1 "rec" = (false, none) ∧
    silentFailSink 2 "rec" = (true, none) ∧
    (RunRule (plainEnv true) silentFailSink (passThroughRule true) "rec" ()).exit = .panic ∧
    (RunRule (plainEnv true) silentFailSink (passThroughRule true) "rec" ()).events =
      [.stage "PREDICATE", .stage "CACHE", .stage "PROJECTION", .counter "rule_count",
        .publish "rec"] ∧
    (RunRule (plainEnv true) silentFailSink (passThroughRule true) "rec" ()).events.count
      (.publish "rec") = 1 ∧
    (RunRule (plainEnv true) silentFailSink (passThroughRule true) "rec" ()).events.count
      .ack = 0 :=
  ⟨⟨⟨none, by decide⟩, ⟨none, by decide⟩, by decide⟩, by decide, by decide, by decide,
    by decide, by decide, by decide, by decide⟩

theorem runRule_afterProjection {W : Type} (env : Env) (sink : Sink) (r : Rulebase W)
    (record : String) (w : W) (o1 o2 : Option Bytes)
    (h1 : (runProjection env r record "PREDICATE" w).outcome = .ret true o1 none)
    (h2 : (runProjection env (runProjection env r record "PREDICATE" w).rulebase record "CACHE"
            (runProjection env r record "PREDICATE" w).world).outcome = .ret true o2 none) :
    RunRule env sink r record w =
      afterProjection env sink [.stage "PREDICATE", .stage "CACHE", .stage "PROJECTION"]
        (runProjection env
          (runProjection env (runProjection env r record "PREDICATE" w).rulebase record "CACHE"
            (runProjection env r record "PREDICATE" w).world).rulebase record "PROJECTION"
          (runProjection env (runProjection env r record "PREDICATE" w).rulebase record "CACHE"
            (runProjection env r record "PREDICATE" w).world).world)
        ((runProjection env r record "PREDICATE" w).calls ++
          (runProjection env (runProjection env r record "PREDICATE" w).rulebase record "CACHE"
            (runProjection env r record "PREDICATE" w).world).calls ++
          (runProjection env
            (runProjection env (runProjection env r record "PREDICATE" w).rulebase record "CACHE"
              (runProjection env r record "PREDICATE" w).world).rulebase record "PROJECTION"
            (runProjection env (runProjection env r record "PREDICATE" w).rulebase record "CACHE"
              (runProjection env r record "PREDICATE" w).world).world).calls) := by
  unfold RunRule
  simp only [h1]
  unfold runRuleCache
  simp only [h2]
  rfl

theorem publishPhase_starts {W : Type} (env : Env) (sink : Sink) (bytes : Bytes)
    (ev : List Event) (p : PassRes W) (calls : List Call) :
    ∃ rest, (publishPhase env sink bytes ev p calls).events =
      ev ++ [.counter "rule_count", .publish bytes] ++ rest := by
  unfold publishPhase
  have hl : ∃ rest, (publishLoop env sink p.rulebase.Checkpoint bytes 3 0
      (ev ++ [.counter "rule_count"])).events =
      ev ++ [.counter "rule_count", .publish bytes] ++ rest := by
    unfold publishLoop
    rcases hs : sink 0 bytes with ⟨b, e⟩
    cases b
    · cases e
      · exact ⟨[], by simp⟩
      · obtain ⟨rest, h⟩ := publishLoop_extends env sink p.rulebase.Checkpoint bytes 2 1
          (ev ++ [.counter "rule_count"] ++ [.publish bytes])
        have hn : ¬ (p.rulebase.Checkpoint = true ∧ 0 ≥ 2) := by simp
        refine ⟨rest, ?_⟩
        simp only [hn, if_false, Bool.false_eq_true, Nat.zero_add]
        rw [h]
        simp
    · cases p.rulebase.Checkpoint
      · exact ⟨[], by simp⟩
      · exact ⟨[.ack], by simp⟩
  obtain ⟨rest, hl⟩ := hl
  dsimp only
  generalize publishLoop env sink p.rulebase.Checkpoint bytes 3 0 _ = l at hl
  obtain ⟨e, n, ev'⟩ := l
  simp only at hl
  subst hl
  cases e
  · exact ⟨rest ++ [.gauge "rule_execution_time" (retryCountString n)], by simp⟩
  · exact ⟨rest, by simp⟩
  · exact ⟨rest, by simp⟩

/-- C9: after a passed PREDICATE and CACHE stage `RunRule` is what lines 146-207 make of
the result of the PROJECTION pass; and whatever result `p` without an error they are
given: when the output bytes are nil, with `passed` true or false, the record is
rejected (no `rule_count`, no publish attempt, one acknowledgement when `Checkpoint` is
set, none otherwise); when `passed` is true and the output bytes are not nil, of
whatever length, `rule_count` is emitted and the bytes are published. -/
theorem nil_bytes_rejected {W : Type} (env : Env) (sink : Sink) (r : Rulebase W)
    (record : String) (w : W) (o1 o2 : Option Bytes)
    (h1 : (runProjection env r record "PREDICATE" w).outcome = .ret true o1 none)
    (h2 : (runProjection env (runProjection env r record "PREDICATE" w).rulebase record "CACHE"
            (runProjection env r record "PREDICATE" w).world).outcome = .ret true o2 none) :
    (∃ p calls, RunRule env sink r record w =
        afterProjection env sink [.stage "PREDICATE", .stage "CACHE", .stage "PROJECTION"] p
          calls ∧
      p = runProjection env
        (runProjection env (runProjection env r record "PREDICATE" w).rulebase record "CACHE"
          (runProjection env r record "PREDICATE" w).world).rulebase record "PROJECTION"
        (runProjection env (runProjection env r record "PREDICATE" w).rulebase record "CACHE"
          (runProjection env r record "PREDICATE" w).world).world) ∧
    ∀ (ev : List Event) (p : PassRes W) (calls : List Call),
      (∀ res, p.outcome = .ret res none none →
        afterProjection env sink ev p calls =
          ⟨.returned, if p.rulebase.Checkpoint then ev ++ [.ack] else ev, p.rulebase, p.world,
            calls⟩) ∧
      (∀ bytes, p.outcome = .ret true (some bytes) none →
        ∃ rest, (afterProjection env sink ev p calls).events =
          ev ++ [.counter "rule_count", .publish bytes] ++ rest) := by
  refine ⟨⟨_, _, runRule_afterProjection env sink r record w o1 o2 h1 h2, rfl⟩, ?_⟩
  intro ev p calls
  constructor
  · intro res h
    unfold afterProjection
    simp only [h]
    cases res <;> rfl
  · intro bytes h
    unfold afterProjection
    simp only [h]
    exact publishPhase_starts env sink bytes ev p calls

theorem nil_bytes_rejected_witness :
    (runProjection (plainEnv false) (passThroughRule true) "rec" "PREDICATE" ()).outcome =
      .ret true none none ∧
    (passedResult none).outcome = .ret true none none ∧
    (afterProjection (plainEnv false) failingSink [.stage "PROJECTION"] (passedResult none)
      []).events = [.stage "PROJECTION", .ack] ∧
    (afterProjection (plainEnv false) failingSink [.stage "PROJECTION"] (passedResult none)
      []).exit = .returned :=
  ⟨by decide, rfl,
    congrArg RunRes.events (((nil_bytes_rejected (plainEnv false) failingSink
      (passThroughRule true) "rec" () none none (by decide) (by decide)).2
      [.stage "PROJECTION"] (passedResult none) []).1 true rfl),
    congrArg RunRes.exit (((nil_bytes_rejected (plainEnv false) failingSink
      (passThroughRule true) "rec" () none none (by decide) (by decide)).2
      [.stage "PROJECTION"] (passedResult none) []).1 true rfl)⟩

end Eqr
